import Mathlib

/-!
Polygon / segment geometry of `usikov.andrew/T3/poly.cpp`

A shallow embedding of the geometry module and the properties its
specification states about it.

Conventions of the embedding.

* `int` coordinates are `Int`.  The source's `int` arithmetic is read without
  overflow in the definitions that carry the source's names; the definitions
  whose names end in `32` are the same functions with every `int` operation
  wrapped to 32 bits, as the compiled code computes them, and with the NaN of
  a negative radicand.
* `double` values are read exactly, as rationals (`ℚ`).  Every division of
  the source is guarded by a non-zero test of its divisor, so no value of the
  embedding depends on how `ℚ` treats a zero divisor.
* An output parameter `std::pair<double, double> *intr` is passed as state:
  `none` is the null pointer, `some v` a slot that currently holds `v`; the
  function returns the slot after the call next to its boolean result.
* A pair of doubles that may be the `(NAN, NAN)` sentinel is an
  `Option (ℚ × ℚ)`, the sentinel being `none`.
* Indexing an empty `std::vector` is undefined behaviour; the functions that
  do it return `none` there.
* `std::sqrt` is a parameter of the area functions, over any field the
  `double`s are read in; the theorems take the real square root over `ℝ`.
-/

namespace usikov

/-- A point with `int` coordinates (`poly.h`). -/
structure Point where
  x : Int
  y : Int
deriving DecidableEq, Repr

/-- A directed segment: the fields `start` and `end` of the source (`end` is a
keyword here, hence `endp`). -/
structure Segment where
  start : Point
  endp : Point
deriving DecidableEq, Repr

/-- A polygon: the vector `points` of the source. -/
structure Polygon where
  points : List Point
deriving DecidableEq, Repr

/-- Modelled from the spec: `Point::operator!=` is declared in `poly.h`, which
is not among the sources; the specification gives point equality as exact
component-wise comparison. -/
def Point.ne (p q : Point) : Bool :=
  !(decide (p.x = q.x) && decide (p.y = q.y))

/-- `Polygon::operator==`: size test, then the index loop with its early
`return false`. -/
def Polygon.eq (P other : Polygon) : Bool :=
  if P.points.length ≠ other.points.length then
    false
  else
    (List.range P.points.length).all fun i =>
      match P.points[i]?, other.points[i]? with
      | some p, some q => !(Point.ne p q)
      | _, _ => true

/-- `Polygon::operator!=`. -/
def Polygon.ne (P other : Polygon) : Bool :=
  !(Polygon.eq P other)

/-- `Segment::isIntersect`, the `int` differences read without overflow
(`Segment.isIntersect32` wraps them).  The result is the returned boolean
together with the output slot after the call. -/
def Segment.isIntersect (s other : Segment) (intr : Option (ℚ × ℚ)) :
    Bool × Option (ℚ × ℚ) :=
  let a11 : ℚ := ((s.endp.x - s.start.x : Int) : ℚ)
  let a12 : ℚ := ((other.start.x - other.endp.x : Int) : ℚ)
  let a21 : ℚ := ((s.endp.y - s.start.y : Int) : ℚ)
  let a22 : ℚ := ((other.start.y - other.endp.y : Int) : ℚ)
  let dx : ℚ := ((other.start.x - s.start.x : Int) : ℚ)
  let dy : ℚ := ((other.start.y - s.start.y : Int) : ℚ)
  if a11 = 0 ∨ a11 * a22 - a21 * a12 = 0 then
    (false, intr)
  else
    let t2 : ℚ := (dy * a11 - dx * a21) / (a11 * a22 - a21 * a12)
    let t1 : ℚ := (dx - a12 * t2) / a11
    if t1 < 0 ∨ t2 < 0 ∨ t1 > 1 ∨ t2 > 1 then
      (false, intr)
    else
      (true, intr.map fun _ =>
        ((s.start.x : ℚ) + ((s.endp.x - s.start.x : Int) : ℚ) * t1,
         (s.start.y : ℚ) + ((s.endp.y - s.start.y : Int) : ℚ) * t1))

/-- The lambda `segmentCreator` of `createSegmentPool` run by `std::transform`
over the points after the first: the captured `prev` is the state. -/
def segmentCreator (prev : Point) : List Point → List Segment
  | [] => []
  | cur :: rest => ⟨prev, cur⟩ :: segmentCreator cur rest

/-- `Polygon::createSegmentPool`.  The vector `res` has `points.size()` slots:
`std::transform` fills all but the last one, and `res.back()` is then set to
the closing segment.  Reading `points[0]` of an empty polygon is undefined. -/
def Polygon.createSegmentPool (P : Polygon) : Option (List Segment) :=
  match P.points with
  | [] => none
  | p0 :: rest =>
    some (segmentCreator p0 rest ++ [⟨(p0 :: rest).getLast (List.cons_ne_nil p0 rest), p0⟩])

/-- `*std::max_element(first, last)` on `int`s: the first largest element;
dereferencing the result on an empty range is undefined. -/
def maxElement : List Int → Option Int
  | [] => none
  | v :: rest => some (rest.foldl (fun largest w => if largest < w then w else largest) v)

/-- `operator<` of `std::pair<double, double>`. -/
def pairLt (a b : ℚ × ℚ) : Bool :=
  decide (a.1 < b.1) || (!(decide (b.1 < a.1)) && decide (a.2 < b.2))

/-- `std::sort` of a vector of pairs: the ascending arrangement for
`operator<` (elements that compare equivalent are equal, so it is unique). -/
def sortPairs (l : List (ℚ × ℚ)) : List (ℚ × ℚ) :=
  l.insertionSort fun a b => pairLt b a = false

/-- `std::unique` followed by `erase`: of every run of equal neighbours only
the first is kept. -/
def unique : List (ℚ × ℚ) → List (ℚ × ℚ)
  | [] => []
  | [a] => [a]
  | a :: b :: rest => if a = b then unique (b :: rest) else a :: unique (b :: rest)

/-- The lambda `addPoint` of `contains`: the point written by `isIntersect`,
or the `(NAN, NAN)` sentinel (`none`). -/
def addPoint (ray sgmt : Segment) : Option (ℚ × ℚ) :=
  let res : ℚ × ℚ := (0, 0)
  match sgmt.isIntersect ray (some res) with
  | (true, some r) => some r
  | _ => none

/-- The part of `Polygon::contains` after `maxX` and `sgmtPool` are known. -/
def containsWith (maxX : Int) (sgmtPool : List Segment) (pnt : Point) : Bool :=
  let outOfBounds : Point := ⟨maxX + 3, pnt.y⟩
  let ray : Segment := ⟨pnt, outOfBounds⟩
  let intrPoints := sgmtPool.map (addPoint ray)
  let intrPoints := intrPoints.filterMap id
  let intrPoints := sortPairs intrPoints
  let intrPoints := unique intrPoints
  intrPoints.length &&& 1 != 0

/-- `Polygon::contains`. -/
def Polygon.contains (P : Polygon) (pnt : Point) : Option Bool :=
  let xArr := P.points.map fun pnt => pnt.x
  match maxElement xArr, P.createSegmentPool with
  | some maxX, some sgmtPool => some (containsWith maxX sgmtPool pnt)
  | _, _ => none

/-- The lambda `countInner` of `Polygon::isIntersect`. -/
def countInner (P : Polygon) (ac : Option Int) (pnt : Point) : Option Int :=
  match ac, P.contains pnt with
  | some ac, some c => some (ac + (if c then 1 else 0))
  | _, _ => none

/-- The lambda `countIntrNested` of `Polygon::isIntersect`. -/
def countIntrNested (sgmt : Segment) (accum : Int) (sgmtOther : Segment) : Int :=
  accum + (if (sgmt.isIntersect sgmtOther none).1 then 1 else 0)

/-- The lambda `countIntrOneIter` of `Polygon::isIntersect`. -/
def countIntrOneIter (otherSegments : List Segment) (ac : Int) (sgmt : Segment) : Int :=
  ac + otherSegments.foldl (countIntrNested sgmt) 0

/-- `Polygon::isIntersect`. -/
def Polygon.isIntersect (P other : Polygon) : Option Bool :=
  match other.createSegmentPool, P.createSegmentPool with
  | some otherSegments, some ourSegments =>
    match other.points.foldl (countInner P) (some 0) with
    | none => none
    | some inner =>
      if inner ≠ 0 then
        some true
      else
        let res := ourSegments.foldl (countIntrOneIter otherSegments) 0
        some (decide (res ≠ 0))
  | _, _ => none

/-- The parameter `t2` computed by `Segment.isIntersect`. -/
def Segment.paramT2 (s other : Segment) : ℚ :=
  (((other.start.y - s.start.y : Int) : ℚ) * ((s.endp.x - s.start.x : Int) : ℚ)
      - ((other.start.x - s.start.x : Int) : ℚ) * ((s.endp.y - s.start.y : Int) : ℚ))
    / (((s.endp.x - s.start.x : Int) : ℚ) * ((other.start.y - other.endp.y : Int) : ℚ)
      - ((s.endp.y - s.start.y : Int) : ℚ) * ((other.start.x - other.endp.x : Int) : ℚ))

/-- The parameter `t1` computed by `Segment.isIntersect`. -/
def Segment.paramT1 (s other : Segment) : ℚ :=
  (((other.start.x - s.start.x : Int) : ℚ)
      - ((other.start.x - other.endp.x : Int) : ℚ) * s.paramT2 other)
    / ((s.endp.x - s.start.x : Int) : ℚ)

/-- The determinant tested by `Segment.isIntersect`, over the integers. -/
def Segment.det (s other : Segment) : Int :=
  (s.endp.x - s.start.x) * (other.start.y - other.endp.y)
    - (s.endp.y - s.start.y) * (other.start.x - other.endp.x)

/-- `triangleArea` (Heron's formula).  The radicands are `int` expressions
converted to `double`, read here without overflow (`triangleArea32` wraps
them); `sqrt` is the square root that the `double`s are read with (the real
square root in every theorem below). -/
def triangleArea {K : Type} [Field K] (sqrt : K → K) (p1 p2 p3 : Point) : K :=
  let a : K := sqrt (((p1.x - p2.x) * (p1.x - p2.x) + (p1.y - p2.y) * (p1.y - p2.y) : Int) : K)
  let b : K := sqrt (((p1.x - p3.x) * (p1.x - p3.x) + (p1.y - p3.y) * (p1.y - p3.y) : Int) : K)
  let c : K := sqrt (((p3.x - p2.x) * (p3.x - p2.x) + (p3.y - p2.y) * (p3.y - p2.y) : Int) : K)
  let p : K := (a + b + c) / 2
  sqrt (p * (p - a) * (p - b) * (p - c))

/-- The radicand of the outer square root of `triangleArea`. -/
def heronRadicand {K : Type} [Field K] (sqrt : K → K) (p1 p2 p3 : Point) : K :=
  let a : K := sqrt (((p1.x - p2.x) * (p1.x - p2.x) + (p1.y - p2.y) * (p1.y - p2.y) : Int) : K)
  let b : K := sqrt (((p1.x - p3.x) * (p1.x - p3.x) + (p1.y - p3.y) * (p1.y - p3.y) : Int) : K)
  let c : K := sqrt (((p3.x - p2.x) * (p3.x - p2.x) + (p3.y - p2.y) * (p3.y - p2.y) : Int) : K)
  let p : K := (a + b + c) / 2
  p * (p - a) * (p - b) * (p - c)

/-- The lambda `counter` of `Polygon::area` run by `std::accumulate` over the
points from the third on: the captured `prev` is state next to the
accumulator `ac`. -/
def counter {K : Type} [Field K] (sqrt : K → K) (p0 : Point) : Point → K → List Point → K
  | _, ac, [] => ac
  | prev, ac, cur :: rest => counter sqrt p0 cur (ac + triangleArea sqrt p0 prev cur) rest

/-- `Polygon::area`.  Reading `points[1]` of a polygon with fewer than two
points is undefined. -/
def Polygon.area {K : Type} [Field K] (sqrt : K → K) (P : Polygon) : Option K :=
  match P.points with
  | p0 :: prev :: rest => some (counter sqrt p0 prev 0 rest)
  | _ => none

/-- `Polygon::operator<`. -/
def Polygon.lt {K : Type} [LinearOrderedField K] (sqrt : K → K) (P other : Polygon) :
    Option Bool :=
  match P.area sqrt, other.area sqrt with
  | some a, some b => some (decide (a < b))
  | _, _ => none

/-- Twice the signed area of the triangle `p1 p2 p3`. -/
def cross (p1 p2 p3 : Point) : Int :=
  (p2.x - p1.x) * (p3.y - p1.y) - (p3.x - p1.x) * (p2.y - p1.y)

/-- The shoelace term of the directed edge from `p` to `q`. -/
def lace (p q : Point) : Int :=
  p.x * q.y - q.x * p.y

/-- The shoelace sum of a vertex list, as the specification of the area states
it: the sum of `x_i * y_{i+1} - x_{i+1} * y_i` over all indices, the successor
of the last index being the first. -/
def shoelaceSum (pts : List Point) : Int :=
  ∑ i in Finset.range pts.length,
    lace (pts.getD i ⟨0, 0⟩) (pts.getD ((i + 1) % pts.length) ⟨0, 0⟩)

/-- The sum of `F` over the consecutive pairs of `prev :: l`. -/
def chainSum {M : Type} [AddCommMonoid M] (F : Point → Point → M) (prev : Point) :
    List Point → M
  | [] => 0
  | cur :: rest => F prev cur + chainSum F cur rest


/-- The value an `int` operation leaves when its exact result is `z`: the
result wrapped to 32 bits, two's complement. -/
def wrap32 (z : Int) : Int :=
  (z + 2147483648) % 4294967296 - 2147483648

/-- `Segment::isIntersect` with its `int` subtractions wrapped to 32 bits. -/
def Segment.isIntersect32 (s other : Segment) (intr : Option (ℚ × ℚ)) :
    Bool × Option (ℚ × ℚ) :=
  let a11 : ℚ := ((wrap32 (s.endp.x - s.start.x) : Int) : ℚ)
  let a12 : ℚ := ((wrap32 (other.start.x - other.endp.x) : Int) : ℚ)
  let a21 : ℚ := ((wrap32 (s.endp.y - s.start.y) : Int) : ℚ)
  let a22 : ℚ := ((wrap32 (other.start.y - other.endp.y) : Int) : ℚ)
  let dx : ℚ := ((wrap32 (other.start.x - s.start.x) : Int) : ℚ)
  let dy : ℚ := ((wrap32 (other.start.y - s.start.y) : Int) : ℚ)
  if a11 = 0 ∨ a11 * a22 - a21 * a12 = 0 then
    (false, intr)
  else
    let t2 : ℚ := (dy * a11 - dx * a21) / (a11 * a22 - a21 * a12)
    let t1 : ℚ := (dx - a12 * t2) / a11
    if t1 < 0 ∨ t2 < 0 ∨ t1 > 1 ∨ t2 > 1 then
      (false, intr)
    else
      (true, intr.map fun _ =>
        ((s.start.x : ℚ) + ((wrap32 (s.endp.x - s.start.x) : Int) : ℚ) * t1,
         (s.start.y : ℚ) + ((wrap32 (s.endp.y - s.start.y) : Int) : ℚ) * t1))

/-- An `int` subtraction whose exact result is `z` does not overflow. -/
def fitsInt (z : Int) : Prop :=
  -2147483648 ≤ z ∧ z < 2147483648

/-- The `int` expression `(p.x - q.x) * (p.x - q.x) + (p.y - q.y) * (p.y - q.y)`
of `triangleArea`, every operation wrapped to 32 bits. -/
def radicand32 (p q : Point) : Int :=
  wrap32 (wrap32 (wrap32 (p.x - q.x) * wrap32 (p.x - q.x))
    + wrap32 (wrap32 (p.y - q.y) * wrap32 (p.y - q.y)))

/-- `std::sqrt` on a `double` that is a number: NaN (`none`) on a negative
argument. -/
def sqrtNaN {K : Type} [LinearOrderedField K] (sqrt : K → K) (z : K) : Option K :=
  if z < 0 then none else some (sqrt z)

/-- `triangleArea` with its `int` radicands wrapped to 32 bits; `none` is NaN,
which every later operation hands on. -/
def triangleArea32 {K : Type} [LinearOrderedField K] (sqrt : K → K) (p1 p2 p3 : Point) :
    Option K :=
  match sqrtNaN sqrt ((radicand32 p1 p2 : Int) : K),
      sqrtNaN sqrt ((radicand32 p1 p3 : Int) : K),
      sqrtNaN sqrt ((radicand32 p3 p2 : Int) : K) with
  | some a, some b, some c =>
    let p : K := (a + b + c) / 2
    sqrtNaN sqrt (p * (p - a) * (p - b) * (p - c))
  | _, _, _ => none

/-- Addition of two `double`s either of which may be NaN. -/
def addNaN {K : Type} [LinearOrderedField K] (x y : Option K) : Option K :=
  match x, y with
  | some u, some v => some (u + v)
  | _, _ => none

/-- The lambda `counter` of `Polygon::area` over `triangleArea32`. -/
def counter32 {K : Type} [LinearOrderedField K] (sqrt : K → K) (p0 : Point) :
    Point → Option K → List Point → Option K
  | _, ac, [] => ac
  | prev, ac, cur :: rest =>
    counter32 sqrt p0 cur (addNaN ac (triangleArea32 sqrt p0 prev cur)) rest

/-- `Polygon::area` over `triangleArea32`: the outer `none` is the undefined
read of `points[1]`, the inner `none` is NaN. -/
def Polygon.area32 {K : Type} [LinearOrderedField K] (sqrt : K → K) (P : Polygon) :
    Option (Option K) :=
  match P.points with
  | p0 :: prev :: rest => some (counter32 sqrt p0 prev (some 0) rest)
  | _ => none

/-- No `int` operation overflows in the radicand of the side `p q`: its exact
value fits in `int` (the differences and the squares are then smaller). -/
def sideFits (p q : Point) : Prop :=
  (p.x - q.x) * (p.x - q.x) + (p.y - q.y) * (p.y - q.y) < 2147483648

/-- No `int` operation overflows in `triangleArea(p1, p2, p3)`. -/
def triangleFits (p1 p2 p3 : Point) : Prop :=
  sideFits p1 p2 ∧ sideFits p1 p3 ∧ sideFits p3 p2


/-! ## Segment intersection -/

theorem isIntersect_degenerate (s other : Segment) (intr : Option (ℚ × ℚ))
    (h : s.endp.x - s.start.x = 0 ∨ s.det other = 0) :
    s.isIntersect other intr = (false, intr) := by
  have hq : ((s.endp.x - s.start.x : Int) : ℚ) = 0 ∨
      ((s.endp.x - s.start.x : Int) : ℚ) * ((other.start.y - other.endp.y : Int) : ℚ)
        - ((s.endp.y - s.start.y : Int) : ℚ) * ((other.start.x - other.endp.x : Int) : ℚ) = 0 := by
    rcases h with h | h
    · left; exact_mod_cast h
    · right; unfold Segment.det at h; exact_mod_cast h
  unfold Segment.isIntersect
  simp only [if_pos hq]

theorem isIntersect_regular (s other : Segment) (intr : Option (ℚ × ℚ))
    (h1 : s.endp.x - s.start.x ≠ 0) (h2 : s.det other ≠ 0) :
    s.isIntersect other intr =
      if s.paramT1 other < 0 ∨ s.paramT2 other < 0 ∨ s.paramT1 other > 1 ∨ s.paramT2 other > 1 then
        (false, intr)
      else
        (true, intr.map fun _ =>
          ((s.start.x : ℚ) + ((s.endp.x - s.start.x : Int) : ℚ) * s.paramT1 other,
           (s.start.y : ℚ) + ((s.endp.y - s.start.y : Int) : ℚ) * s.paramT1 other)) := by
  have hq : ¬ (((s.endp.x - s.start.x : Int) : ℚ) = 0 ∨
      ((s.endp.x - s.start.x : Int) : ℚ) * ((other.start.y - other.endp.y : Int) : ℚ)
        - ((s.endp.y - s.start.y : Int) : ℚ) * ((other.start.x - other.endp.x : Int) : ℚ) = 0) := by
    rintro (h | h)
    · exact h1 (by exact_mod_cast h)
    · apply h2; unfold Segment.det; exact_mod_cast h
  unfold Segment.isIntersect
  simp only [if_neg hq]
  rfl

/-- Cramer: the parameters computed by the source solve the 2x2 system. -/
theorem linsys_solves (a11 a12 a21 a22 dx dy : ℚ) (h1 : a11 ≠ 0)
    (h2 : a11 * a22 - a21 * a12 ≠ 0) :
    a11 * ((dx - a12 * ((dy * a11 - dx * a21) / (a11 * a22 - a21 * a12))) / a11)
        + a12 * ((dy * a11 - dx * a21) / (a11 * a22 - a21 * a12)) = dx ∧
    a21 * ((dx - a12 * ((dy * a11 - dx * a21) / (a11 * a22 - a21 * a12))) / a11)
        + a22 * ((dy * a11 - dx * a21) / (a11 * a22 - a21 * a12)) = dy := by
  constructor
  · field_simp
    ring
  · field_simp
    ring

/-- A solution of the 2x2 system with non-zero determinant is the computed one. -/
theorem linsys_unique (a11 a12 a21 a22 dx dy u1 u2 : ℚ) (h1 : a11 ≠ 0)
    (h2 : a11 * a22 - a21 * a12 ≠ 0)
    (e1 : a11 * u1 + a12 * u2 = dx) (e2 : a21 * u1 + a22 * u2 = dy) :
    u2 = (dy * a11 - dx * a21) / (a11 * a22 - a21 * a12) ∧
    u1 = (dx - a12 * ((dy * a11 - dx * a21) / (a11 * a22 - a21 * a12))) / a11 := by
  have hu2 : u2 = (dy * a11 - dx * a21) / (a11 * a22 - a21 * a12) := by
    rw [eq_div_iff h2, ← e1, ← e2]; ring
  refine ⟨hu2, ?_⟩
  rw [← hu2, eq_div_iff h1, ← e1]; ring

theorem params_solve (s other : Segment)
    (h1 : s.endp.x - s.start.x ≠ 0) (h2 : s.det other ≠ 0) :
    ((s.endp.x - s.start.x : Int) : ℚ) * s.paramT1 other
        + ((other.start.x - other.endp.x : Int) : ℚ) * s.paramT2 other
        = ((other.start.x - s.start.x : Int) : ℚ) ∧
    ((s.endp.y - s.start.y : Int) : ℚ) * s.paramT1 other
        + ((other.start.y - other.endp.y : Int) : ℚ) * s.paramT2 other
        = ((other.start.y - s.start.y : Int) : ℚ) := by
  have q1 : ((s.endp.x - s.start.x : Int) : ℚ) ≠ 0 := by exact_mod_cast h1
  have q2 : ((s.endp.x - s.start.x : Int) : ℚ) * ((other.start.y - other.endp.y : Int) : ℚ)
        - ((s.endp.y - s.start.y : Int) : ℚ) * ((other.start.x - other.endp.x : Int) : ℚ) ≠ 0 := by
    unfold Segment.det at h2; exact_mod_cast h2
  exact linsys_solves _ _ _ _ _ _ q1 q2

theorem params_unique (s other : Segment) (u1 u2 : ℚ)
    (h1 : s.endp.x - s.start.x ≠ 0) (h2 : s.det other ≠ 0)
    (e1 : ((s.endp.x - s.start.x : Int) : ℚ) * u1
        + ((other.start.x - other.endp.x : Int) : ℚ) * u2
        = ((other.start.x - s.start.x : Int) : ℚ))
    (e2 : ((s.endp.y - s.start.y : Int) : ℚ) * u1
        + ((other.start.y - other.endp.y : Int) : ℚ) * u2
        = ((other.start.y - s.start.y : Int) : ℚ)) :
    u2 = s.paramT2 other ∧ u1 = s.paramT1 other := by
  have q1 : ((s.endp.x - s.start.x : Int) : ℚ) ≠ 0 := by exact_mod_cast h1
  have q2 : ((s.endp.x - s.start.x : Int) : ℚ) * ((other.start.y - other.endp.y : Int) : ℚ)
        - ((s.endp.y - s.start.y : Int) : ℚ) * ((other.start.x - other.endp.x : Int) : ℚ) ≠ 0 := by
    unfold Segment.det at h2; exact_mod_cast h2
  exact linsys_unique _ _ _ _ _ _ u1 u2 q1 q2 e1 e2

/-- The boolean result is `true` exactly when the system is regular and both
computed parameters lie in `[0, 1]`. -/
theorem isIntersect_true_iff (s other : Segment) (intr : Option (ℚ × ℚ)) :
    (s.isIntersect other intr).1 = true ↔
      s.endp.x - s.start.x ≠ 0 ∧ s.det other ≠ 0 ∧
      0 ≤ s.paramT1 other ∧ s.paramT1 other ≤ 1 ∧
      0 ≤ s.paramT2 other ∧ s.paramT2 other ≤ 1 := by
  by_cases h : s.endp.x - s.start.x = 0 ∨ s.det other = 0
  · rw [isIntersect_degenerate s other intr h]
    simp only [Bool.false_eq_true, false_iff]
    rintro ⟨h1, h2, -⟩
    rcases h with h | h
    · exact h1 h
    · exact h2 h
  · push_neg at h
    rw [isIntersect_regular s other intr h.1 h.2]
    split_ifs with hc
    · simp only [Bool.false_eq_true, false_iff]
      rintro ⟨-, -, a, b, c, d⟩
      rcases hc with hc | hc | hc | hc <;> linarith
    · simp only [not_or, not_lt] at hc
      simp only [true_iff]
      exact ⟨h.1, h.2, hc.1, hc.2.2.1, hc.2.1, hc.2.2.2⟩

/-- When the result is `true` the slot holds the point at parameter `t1`. -/
theorem isIntersect_slot (s other : Segment) (v : ℚ × ℚ)
    (h : (s.isIntersect other (some v)).1 = true) :
    (s.isIntersect other (some v)).2 =
      some ((s.start.x : ℚ) + ((s.endp.x - s.start.x : Int) : ℚ) * s.paramT1 other,
            (s.start.y : ℚ) + ((s.endp.y - s.start.y : Int) : ℚ) * s.paramT1 other) := by
  have h' := (isIntersect_true_iff s other (some v)).1 h
  rw [isIntersect_regular s other (some v) h'.1 h'.2.1]
  rw [if_neg]
  · rfl
  · rintro (hc | hc | hc | hc) <;> linarith [h'.2.2.1, h'.2.2.2.1, h'.2.2.2.2.1, h'.2.2.2.2.2]

/-- C4: whenever `S.isIntersect(T, &out)` returns true, the point written to
`out` lies on both segments: it is `S.start + t1 * (S.end - S.start)` and
`T.start + t2 * (T.end - T.start)` for some `t1`, `t2` in `[0, 1]`. -/
theorem isIntersect_point_on_both (S T : Segment) (v : ℚ × ℚ)
    (h : (S.isIntersect T (some v)).1 = true) :
    ∃ out : ℚ × ℚ, ∃ t1 t2 : ℚ,
      (S.isIntersect T (some v)).2 = some out ∧
      0 ≤ t1 ∧ t1 ≤ 1 ∧ 0 ≤ t2 ∧ t2 ≤ 1 ∧
      out.1 = (S.start.x : ℚ) + t1 * ((S.endp.x : ℚ) - (S.start.x : ℚ)) ∧
      out.2 = (S.start.y : ℚ) + t1 * ((S.endp.y : ℚ) - (S.start.y : ℚ)) ∧
      out.1 = (T.start.x : ℚ) + t2 * ((T.endp.x : ℚ) - (T.start.x : ℚ)) ∧
      out.2 = (T.start.y : ℚ) + t2 * ((T.endp.y : ℚ) - (T.start.y : ℚ)) := by
  have h' := (isIntersect_true_iff S T (some v)).1 h
  obtain ⟨e1, e2⟩ := params_solve S T h'.1 h'.2.1
  push_cast at e1 e2
  refine ⟨_, S.paramT1 T, S.paramT2 T, isIntersect_slot S T v h,
    h'.2.2.1, h'.2.2.2.1, h'.2.2.2.2.1, h'.2.2.2.2.2, ?_, ?_, ?_, ?_⟩
  · push_cast; ring
  · push_cast; ring
  · push_cast; linear_combination e1
  · push_cast; linear_combination e2

theorem isIntersect_point_on_both_witness :
    (Segment.isIntersect ⟨⟨0, 0⟩, ⟨2, 2⟩⟩ ⟨⟨0, 2⟩, ⟨2, 0⟩⟩ (some (0, 0))).1 = true ∧
    ∃ out : ℚ × ℚ, ∃ t1 t2 : ℚ,
      (Segment.isIntersect ⟨⟨0, 0⟩, ⟨2, 2⟩⟩ ⟨⟨0, 2⟩, ⟨2, 0⟩⟩ (some (0, 0))).2 = some out ∧
      0 ≤ t1 ∧ t1 ≤ 1 ∧ 0 ≤ t2 ∧ t2 ≤ 1 ∧
      out.1 = ((0 : Int) : ℚ) + t1 * (((2 : Int) : ℚ) - ((0 : Int) : ℚ)) ∧
      out.2 = ((0 : Int) : ℚ) + t1 * (((2 : Int) : ℚ) - ((0 : Int) : ℚ)) ∧
      out.1 = ((0 : Int) : ℚ) + t2 * (((2 : Int) : ℚ) - ((0 : Int) : ℚ)) ∧
      out.2 = ((2 : Int) : ℚ) + t2 * (((0 : Int) : ℚ) - ((2 : Int) : ℚ)) :=
  ⟨by decide!, isIntersect_point_on_both ⟨⟨0, 0⟩, ⟨2, 2⟩⟩ ⟨⟨0, 2⟩, ⟨2, 0⟩⟩ (0, 0) (by decide!)⟩

/-- Uniqueness of the solution of the system, for parameters taken in any
field that contains the rationals (used with the reals). -/
theorem linsys_unique_real (a11 a12 a21 a22 dx dy : ℚ) (u1 u2 : ℝ) (h1 : a11 ≠ 0)
    (h2 : a11 * a22 - a21 * a12 ≠ 0)
    (e1 : (a11 : ℝ) * u1 + (a12 : ℝ) * u2 = (dx : ℝ))
    (e2 : (a21 : ℝ) * u1 + (a22 : ℝ) * u2 = (dy : ℝ)) :
    u2 = (((dy * a11 - dx * a21) / (a11 * a22 - a21 * a12) : ℚ) : ℝ) ∧
    u1 = (((dx - a12 * ((dy * a11 - dx * a21) / (a11 * a22 - a21 * a12))) / a11 : ℚ) : ℝ) := by
  have r1 : (a11 : ℝ) ≠ 0 := by exact_mod_cast h1
  have r2 : (a11 : ℝ) * (a22 : ℝ) - (a21 : ℝ) * (a12 : ℝ) ≠ 0 := by exact_mod_cast h2
  have hu2 : u2 = ((dy : ℝ) * a11 - dx * a21) / ((a11 : ℝ) * a22 - a21 * a12) := by
    rw [eq_div_iff r2, ← e1, ← e2]; ring
  have hu1 : u1 = ((dx : ℝ) - a12 * u2) / a11 := by
    rw [eq_div_iff r1, ← e1]; ring
  constructor
  · rw [hu2]; push_cast; ring
  · rw [hu1, hu2]; push_cast; ring

/-- C5: for a non-vertical `S` and non-parallel directions, `S.isIntersect(T)`
returns true exactly when the closed segments share a point, i.e. when
`S.start + t1 * (S.end - S.start) = T.start + t2 * (T.end - T.start)` for some
`t1`, `t2` in `[0, 1]` (stated with rational and with real parameters); and for
`S = (0,0)-(2,2)`, `T = (0,2)-(2,0)` the result is true and the point written is
`(1, 1)`. -/
theorem isIntersect_iff_share_point :
    (∀ (S T : Segment) (intr : Option (ℚ × ℚ)),
      S.start.x ≠ S.endp.x →
      (S.endp.x - S.start.x) * (T.start.y - T.endp.y)
        - (S.endp.y - S.start.y) * (T.start.x - T.endp.x) ≠ 0 →
      (((S.isIntersect T intr).1 = true ↔
        ∃ t1 t2 : ℚ, 0 ≤ t1 ∧ t1 ≤ 1 ∧ 0 ≤ t2 ∧ t2 ≤ 1 ∧
          (S.start.x : ℚ) + t1 * ((S.endp.x : ℚ) - (S.start.x : ℚ))
            = (T.start.x : ℚ) + t2 * ((T.endp.x : ℚ) - (T.start.x : ℚ)) ∧
          (S.start.y : ℚ) + t1 * ((S.endp.y : ℚ) - (S.start.y : ℚ))
            = (T.start.y : ℚ) + t2 * ((T.endp.y : ℚ) - (T.start.y : ℚ))) ∧
       ((S.isIntersect T intr).1 = true ↔
        ∃ t1 t2 : ℝ, 0 ≤ t1 ∧ t1 ≤ 1 ∧ 0 ≤ t2 ∧ t2 ≤ 1 ∧
          (S.start.x : ℝ) + t1 * ((S.endp.x : ℝ) - (S.start.x : ℝ))
            = (T.start.x : ℝ) + t2 * ((T.endp.x : ℝ) - (T.start.x : ℝ)) ∧
          (S.start.y : ℝ) + t1 * ((S.endp.y : ℝ) - (S.start.y : ℝ))
            = (T.start.y : ℝ) + t2 * ((T.endp.y : ℝ) - (T.start.y : ℝ))))) ∧
    (∀ v : ℚ × ℚ,
      Segment.isIntersect ⟨⟨0, 0⟩, ⟨2, 2⟩⟩ ⟨⟨0, 2⟩, ⟨2, 0⟩⟩ (some v) = (true, some (1, 1))) := by
  refine ⟨?_, ?_⟩
  · intro S T intr hv hd
    have h1 : S.endp.x - S.start.x ≠ 0 := fun h => hv (by omega)
    have h2 : S.det T ≠ 0 := hd
    obtain ⟨e1, e2⟩ := params_solve S T h1 h2
    have key : (S.isIntersect T intr).1 = true ↔
        0 ≤ S.paramT1 T ∧ S.paramT1 T ≤ 1 ∧ 0 ≤ S.paramT2 T ∧ S.paramT2 T ≤ 1 := by
      rw [isIntersect_true_iff]
      exact ⟨fun h => h.2.2, fun h => ⟨h1, h2, h⟩⟩
    constructor
    · rw [key]
      constructor
      · rintro ⟨a, b, c, d⟩
        push_cast at e1 e2
        refine ⟨S.paramT1 T, S.paramT2 T, a, b, c, d, ?_, ?_⟩
        · linear_combination e1
        · linear_combination e2
      · rintro ⟨t1, t2, a, b, c, d, ex, ey⟩
        obtain ⟨u2, u1⟩ := params_unique S T t1 t2 h1 h2
          (by push_cast; linear_combination ex) (by push_cast; linear_combination ey)
        rw [← u1, ← u2]
        exact ⟨a, b, c, d⟩
    · rw [key]
      constructor
      · rintro ⟨a, b, c, d⟩
        have e1r := congrArg (fun q : ℚ => (q : ℝ)) e1
        have e2r := congrArg (fun q : ℚ => (q : ℝ)) e2
        simp only at e1r e2r
        push_cast at e1r e2r
        refine ⟨(S.paramT1 T : ℝ), (S.paramT2 T : ℝ), ?_, ?_, ?_, ?_, ?_, ?_⟩
        · exact_mod_cast a
        · exact_mod_cast b
        · exact_mod_cast c
        · exact_mod_cast d
        · linear_combination e1r
        · linear_combination e2r
      · rintro ⟨t1, t2, a, b, c, d, ex, ey⟩
        have q1 : ((S.endp.x - S.start.x : Int) : ℚ) ≠ 0 := by exact_mod_cast h1
        have q2 : ((S.endp.x - S.start.x : Int) : ℚ) * ((T.start.y - T.endp.y : Int) : ℚ)
            - ((S.endp.y - S.start.y : Int) : ℚ) * ((T.start.x - T.endp.x : Int) : ℚ) ≠ 0 := by
          unfold Segment.det at h2; exact_mod_cast h2
        obtain ⟨u2, u1⟩ := linsys_unique_real _ _ _ _
          ((T.start.x - S.start.x : Int) : ℚ) ((T.start.y - S.start.y : Int) : ℚ) t1 t2 q1 q2
          (by push_cast; linear_combination ex) (by push_cast; linear_combination ey)
        have v1 : t1 = ((S.paramT1 T : ℚ) : ℝ) := u1
        have v2 : t2 = ((S.paramT2 T : ℚ) : ℝ) := u2
        rw [v1] at a b
        rw [v2] at c d
        refine ⟨?_, ?_, ?_, ?_⟩
        · exact_mod_cast a
        · exact_mod_cast b
        · exact_mod_cast c
        · exact_mod_cast d
  · intro v
    have h : (Segment.isIntersect ⟨⟨0, 0⟩, ⟨2, 2⟩⟩ ⟨⟨0, 2⟩, ⟨2, 0⟩⟩ (some v)).1 = true := by
      rw [isIntersect_true_iff]
      decide!
    have hs := isIntersect_slot ⟨⟨0, 0⟩, ⟨2, 2⟩⟩ ⟨⟨0, 2⟩, ⟨2, 0⟩⟩ v h
    have hp : (Segment.isIntersect ⟨⟨0, 0⟩, ⟨2, 2⟩⟩ ⟨⟨0, 2⟩, ⟨2, 0⟩⟩ (some v)).2
        = some (1, 1) := by
      rw [hs]
      decide!
    exact Prod.ext h hp

theorem isIntersect_iff_share_point_witness :
    (⟨0, 0⟩ : Point).x ≠ (⟨2, 2⟩ : Point).x ∧
    (2 - 0 : Int) * (2 - 0) - (2 - 0) * (0 - 2) ≠ 0 ∧
    ((Segment.isIntersect ⟨⟨0, 0⟩, ⟨2, 2⟩⟩ ⟨⟨0, 2⟩, ⟨2, 0⟩⟩ none).1 = true ↔
      ∃ t1 t2 : ℚ, 0 ≤ t1 ∧ t1 ≤ 1 ∧ 0 ≤ t2 ∧ t2 ≤ 1 ∧
        ((0 : Int) : ℚ) + t1 * (((2 : Int) : ℚ) - ((0 : Int) : ℚ))
          = ((0 : Int) : ℚ) + t2 * (((2 : Int) : ℚ) - ((0 : Int) : ℚ)) ∧
        ((0 : Int) : ℚ) + t1 * (((2 : Int) : ℚ) - ((0 : Int) : ℚ))
          = ((2 : Int) : ℚ) + t2 * (((0 : Int) : ℚ) - ((2 : Int) : ℚ))) :=
  ⟨by decide, by decide,
    (isIntersect_iff_share_point.1 ⟨⟨0, 0⟩, ⟨2, 2⟩⟩ ⟨⟨0, 2⟩, ⟨2, 0⟩⟩ none
      (by decide) (by decide)).1⟩

/-! ## The segment pool and polygon equality -/

theorem segmentCreator_length (prev : Point) (l : List Point) :
    (segmentCreator prev l).length = l.length := by
  induction l generalizing prev with
  | nil => rfl
  | cons cur rest ih => simp [segmentCreator, ih]

theorem segmentCreator_getElem? (prev : Point) (l : List Point) (i : Nat) (p q : Point)
    (hp : (prev :: l)[i]? = some p) (hq : (prev :: l)[i + 1]? = some q) :
    (segmentCreator prev l)[i]? = some ⟨p, q⟩ := by
  induction l generalizing prev i with
  | nil => simp at hq
  | cons cur rest ih =>
    cases i with
    | zero =>
      simp at hp hq
      simp [segmentCreator, hp, hq]
    | succ j =>
      simp only [List.getElem?_cons_succ] at hp hq
      simp only [segmentCreator, List.getElem?_cons_succ]
      exact ih cur j hp (by simpa using hq)

theorem createSegmentPool_cons (p0 : Point) (rest : List Point) :
    (Polygon.mk (p0 :: rest)).createSegmentPool =
      some (segmentCreator p0 rest ++
        [⟨(p0 :: rest).getLast (List.cons_ne_nil p0 rest), p0⟩]) := rfl

theorem getElem?_eq_some_getD (l : List Point) (i : Nat) (d : Point) (h : i < l.length) :
    l[i]? = some (l.getD i d) := by
  simp [List.getD, List.getElem?_eq_getElem h]

/-- Every slot of the pool, uniformly: slot `i` joins point `i` to point
`(i + 1) mod n`. -/
theorem pool_getElem? (p0 : Point) (rest : List Point) (i : Nat)
    (hi : i < (p0 :: rest).length) :
    (segmentCreator p0 rest ++
        [(⟨(p0 :: rest).getLast (List.cons_ne_nil p0 rest), p0⟩ : Segment)])[i]?
      = some ⟨(p0 :: rest).getD i p0,
          (p0 :: rest).getD ((i + 1) % (p0 :: rest).length) p0⟩ := by
  by_cases hlast : i + 1 < (p0 :: rest).length
  · rw [Nat.mod_eq_of_lt hlast,
      List.getElem?_append_left (by rw [segmentCreator_length]; simpa using hlast)]
    exact segmentCreator_getElem? p0 rest i _ _
      (getElem?_eq_some_getD _ i p0 hi) (getElem?_eq_some_getD _ (i + 1) p0 hlast)
  · have hi1 : i = (segmentCreator p0 rest).length := by
      rw [segmentCreator_length]
      simp only [List.length_cons] at hi hlast
      omega
    have hmod : (i + 1) % (p0 :: rest).length = 0 := by
      have : i + 1 = (p0 :: rest).length := by
        simp only [List.length_cons] at hi hlast ⊢
        omega
      rw [this, Nat.mod_self]
    rw [hmod, List.getElem?_append_right (by omega), hi1]
    simp only [Nat.sub_self, List.getElem?_cons_zero, Option.some.injEq]
    have hget : (p0 :: rest).getLast (List.cons_ne_nil p0 rest)
        = (p0 :: rest).getD (segmentCreator p0 rest).length p0 := by
      rw [List.getLast_eq_getElem, segmentCreator_length]
      simp [List.getD]
    rw [hget]
    simp

/-- C9: for a polygon with `n >= 1` points `createSegmentPool` returns exactly
`n` segments; segment `i` is `(p_i, p_{i+1})` for `i + 1 < n`, segment `n - 1`
is `(p_{n-1}, p_0)`, and the end of every segment is the start of the next
one, cyclically. -/
theorem createSegmentPool_chain (P : Polygon) (hn : 1 ≤ P.points.length) :
    ∃ pool : List Segment,
      P.createSegmentPool = some pool ∧
      pool.length = P.points.length ∧
      (∀ i p q, i + 1 < P.points.length → P.points[i]? = some p →
        P.points[i + 1]? = some q → pool[i]? = some ⟨p, q⟩) ∧
      (∀ p q, P.points[P.points.length - 1]? = some p → P.points[0]? = some q →
        pool[P.points.length - 1]? = some ⟨p, q⟩) ∧
      (∀ i, i < P.points.length →
        ∃ s t, pool[i]? = some s ∧ pool[(i + 1) % P.points.length]? = some t ∧
          s.endp = t.start) := by
  obtain ⟨pts⟩ := P
  cases pts with
  | nil => simp at hn
  | cons p0 rest =>
    show ∃ pool : List Segment,
      (Polygon.mk (p0 :: rest)).createSegmentPool = some pool ∧
      pool.length = (p0 :: rest).length ∧
      (∀ i p q, i + 1 < (p0 :: rest).length → (p0 :: rest)[i]? = some p →
        (p0 :: rest)[i + 1]? = some q → pool[i]? = some ⟨p, q⟩) ∧
      (∀ p q, (p0 :: rest)[(p0 :: rest).length - 1]? = some p → (p0 :: rest)[0]? = some q →
        pool[(p0 :: rest).length - 1]? = some ⟨p, q⟩) ∧
      (∀ i, i < (p0 :: rest).length →
        ∃ s t, pool[i]? = some s ∧ pool[(i + 1) % (p0 :: rest).length]? = some t ∧
          s.endp = t.start)
    have hpos : 0 < (p0 :: rest).length := by simp
    refine ⟨_, createSegmentPool_cons p0 rest, by simp [segmentCreator_length], ?_, ?_, ?_⟩
    · intro i p q hi hp hq
      rw [getElem?_eq_some_getD _ i p0 (by omega)] at hp
      rw [getElem?_eq_some_getD _ (i + 1) p0 hi] at hq
      rw [pool_getElem? p0 rest i (by omega), Nat.mod_eq_of_lt hi,
        Option.some.inj hp, Option.some.inj hq]
    · intro p q hp hq
      rw [getElem?_eq_some_getD _ _ p0 (by omega)] at hp
      rw [getElem?_eq_some_getD _ 0 p0 hpos] at hq
      have hmod : ((p0 :: rest).length - 1 + 1) % (p0 :: rest).length = 0 := by
        rw [Nat.sub_add_cancel hpos, Nat.mod_self]
      rw [pool_getElem? p0 rest _ (by omega), hmod,
        Option.some.inj hp, Option.some.inj hq]
    · intro i hi
      have hm : (i + 1) % (p0 :: rest).length < (p0 :: rest).length := Nat.mod_lt _ hpos
      exact ⟨_, _, pool_getElem? p0 rest i hi, pool_getElem? p0 rest _ hm, rfl⟩

theorem createSegmentPool_chain_witness :
    1 ≤ (Polygon.mk [⟨0, 0⟩, ⟨4, 0⟩, ⟨4, 4⟩, ⟨0, 4⟩]).points.length ∧
    ∃ pool : List Segment,
      (Polygon.mk [⟨0, 0⟩, ⟨4, 0⟩, ⟨4, 4⟩, ⟨0, 4⟩]).createSegmentPool = some pool ∧
      pool.length = 4 ∧
      pool[0]? = some ⟨⟨0, 0⟩, ⟨4, 0⟩⟩ ∧
      pool[3]? = some ⟨⟨0, 4⟩, ⟨0, 0⟩⟩ :=
  ⟨by decide,
    (createSegmentPool_chain ⟨[⟨0, 0⟩, ⟨4, 0⟩, ⟨4, 4⟩, ⟨0, 4⟩]⟩ (by decide)).imp
      fun _ h => ⟨h.1, h.2.1, h.2.2.1 0 _ _ (by decide) rfl rfl, h.2.2.2.1 _ _ rfl rfl⟩⟩

theorem Point.ne_eq_false_iff (p q : Point) : Point.ne p q = false ↔ p = q := by
  obtain ⟨px, py⟩ := p
  obtain ⟨qx, qy⟩ := q
  simp [Point.ne]

/-- The loop of `operator==` accepts exactly equal vertex sequences. -/
theorem Polygon.eq_iff_points (P Q : Polygon) : P.eq Q = true ↔ P.points = Q.points := by
  unfold Polygon.eq
  by_cases hlen : P.points.length = Q.points.length
  · rw [if_neg (not_not.mpr hlen)]
    rw [List.all_eq_true]
    constructor
    · intro h
      apply List.ext_getElem hlen
      intro i h1 h2
      have hi := h i (List.mem_range.mpr h1)
      rw [List.getElem?_eq_getElem h1, List.getElem?_eq_getElem h2] at hi
      simp only [Bool.not_eq_true'] at hi
      exact (Point.ne_eq_false_iff _ _).1 hi
    · intro h i hi
      rw [← h]
      have h1 : i < P.points.length := List.mem_range.mp hi
      rw [List.getElem?_eq_getElem h1]
      simp only [Bool.not_eq_true']
      exact (Point.ne_eq_false_iff _ _).2 rfl
  · rw [if_pos hlen]
    simp only [Bool.false_eq_true, false_iff]
    intro h
    exact hlen (by rw [h])

/-- C10: `P == Q` holds exactly when the polygons have the same number of
vertices and the vertices at every index are equal component-wise;
consequently `P == P`, `P != Q` whenever the vertex sequences differ (in
length or at some position), and `P != Q` is the negation of `P == Q`. -/
theorem polygon_eq_iff (P Q : Polygon) :
    (P.eq Q = true ↔
      P.points.length = Q.points.length ∧
      ∀ (i : Nat) (p q : Point), P.points[i]? = some p → Q.points[i]? = some q →
        p.x = q.x ∧ p.y = q.y) ∧
    P.eq P = true ∧
    (P.points ≠ Q.points → P.ne Q = true) ∧
    (P.points.length ≠ Q.points.length → P.ne Q = true) ∧
    (∀ (i : Nat) (p q : Point), P.points[i]? = some p → Q.points[i]? = some q → p ≠ q →
      P.ne Q = true) ∧
    P.ne Q = !(P.eq Q) := by
  have hne : P.points ≠ Q.points → P.ne Q = true := by
    intro h
    have : P.eq Q = false := by
      rw [← Bool.not_eq_true, Polygon.eq_iff_points]
      exact h
    simp [Polygon.ne, this]
  refine ⟨?_, (Polygon.eq_iff_points P P).2 rfl, hne, ?_, ?_, rfl⟩
  · rw [Polygon.eq_iff_points]
    constructor
    · intro h
      refine ⟨by rw [h], ?_⟩
      intro i p q hp hq
      rw [h, hq] at hp
      rw [Option.some.inj hp]
      exact ⟨rfl, rfl⟩
    · rintro ⟨hlen, h⟩
      apply List.ext_getElem hlen
      intro i h1 h2
      obtain ⟨hx, hy⟩ := h i _ _ (List.getElem?_eq_getElem h1) (List.getElem?_eq_getElem h2)
      cases hP : P.points[i]
      cases hQ : Q.points[i]
      rw [hP, hQ] at hx hy
      simp only at hx hy
      rw [hx, hy]
  · intro h
    exact hne fun e => h (by rw [e])
  · intro i p q hp hq hpq
    apply hne
    intro e
    rw [e, hq] at hp
    exact hpq (Option.some.inj hp).symm

theorem polygon_eq_iff_witness :
    (Polygon.mk [⟨0, 0⟩, ⟨4, 0⟩, ⟨4, 4⟩]).points ≠ (Polygon.mk [⟨4, 0⟩, ⟨4, 4⟩, ⟨0, 0⟩]).points ∧
    Polygon.ne ⟨[⟨0, 0⟩, ⟨4, 0⟩, ⟨4, 4⟩]⟩ ⟨[⟨4, 0⟩, ⟨4, 4⟩, ⟨0, 0⟩]⟩ = true :=
  ⟨by decide,
    (polygon_eq_iff ⟨[⟨0, 0⟩, ⟨4, 0⟩, ⟨4, 4⟩]⟩ ⟨[⟨4, 0⟩, ⟨4, 4⟩, ⟨0, 0⟩]⟩).2.2.1 (by decide)⟩

/-! ## Polygon intersection -/

/-- On a non-empty polygon `createSegmentPool` returns a pool. -/
theorem createSegmentPool_isSome (P : Polygon) (h : P.points ≠ []) :
    ∃ pool, P.createSegmentPool = some pool := by
  obtain ⟨pts⟩ := P
  cases pts with
  | nil => exact absurd rfl h
  | cons p0 rest => exact ⟨_, createSegmentPool_cons p0 rest⟩

/-- On a non-empty polygon `contains` returns a boolean. -/
theorem contains_isSome (P : Polygon) (h : P.points ≠ []) (pnt : Point) :
    ∃ b, P.contains pnt = some b := by
  obtain ⟨pts⟩ := P
  cases pts with
  | nil => exact absurd rfl h
  | cons p0 rest => exact ⟨_, rfl⟩

/-- The accumulation of `countInner`: a count that is non-zero exactly when
some point of the list is reported contained. -/
theorem foldl_countInner (P : Polygon) (hP : ∀ v, ∃ b, P.contains v = some b)
    (l : List Point) (ac : Int) :
    ∃ n : Nat, l.foldl (countInner P) (some ac) = some (ac + n) ∧
      (n ≠ 0 ↔ ∃ v ∈ l, P.contains v = some true) := by
  induction l generalizing ac with
  | nil => exact ⟨0, by simp, by simp⟩
  | cons v rest ih =>
    obtain ⟨b, hb⟩ := hP v
    cases b with
    | false =>
      obtain ⟨n, h1, h2⟩ := ih ac
      refine ⟨n, ?_, ?_⟩
      · simp only [List.foldl_cons, countInner, hb]
        simpa using h1
      · rw [h2]
        simp [hb]
    | true =>
      obtain ⟨n, h1, -⟩ := ih (ac + 1)
      refine ⟨n + 1, ?_, ?_⟩
      · simp only [List.foldl_cons, countInner, hb]
        rw [if_pos trivial, h1]
        push_cast
        ring_nf
      · simp [hb]

/-- The accumulation of `countIntrNested`. -/
theorem foldl_countIntrNested (sgmt : Segment) (l : List Segment) (ac : Int) :
    ∃ n : Nat, l.foldl (countIntrNested sgmt) ac = ac + n ∧
      (n ≠ 0 ↔ ∃ f ∈ l, (sgmt.isIntersect f none).1 = true) := by
  induction l generalizing ac with
  | nil => exact ⟨0, by simp, by simp⟩
  | cons f rest ih =>
    by_cases hf : (sgmt.isIntersect f none).1 = true
    · obtain ⟨n, h1, -⟩ := ih (ac + 1)
      refine ⟨n + 1, ?_, ?_⟩
      · simp only [List.foldl_cons, countIntrNested, hf, if_true]
        rw [h1]
        push_cast
        ring
      · simp [hf]
    · obtain ⟨n, h1, h2⟩ := ih ac
      refine ⟨n, ?_, ?_⟩
      · simp only [List.foldl_cons, countIntrNested, hf]
        simpa using h1
      · rw [h2]
        simp [hf]

/-- The accumulation of `countIntrOneIter`. -/
theorem foldl_countIntrOneIter (others : List Segment) (l : List Segment) (ac : Int) :
    ∃ n : Nat, l.foldl (countIntrOneIter others) ac = ac + n ∧
      (n ≠ 0 ↔ ∃ e ∈ l, ∃ f ∈ others, (e.isIntersect f none).1 = true) := by
  induction l generalizing ac with
  | nil => exact ⟨0, by simp, by simp⟩
  | cons e rest ih =>
    obtain ⟨m, hm1, hm2⟩ := foldl_countIntrNested e others 0
    obtain ⟨n, h1, h2⟩ := ih (ac + m)
    refine ⟨m + n, ?_, ?_⟩
    · simp only [List.foldl_cons, countIntrOneIter, hm1, zero_add]
      rw [h1]
      push_cast
      ring
    · simp only [List.mem_cons, exists_eq_or_imp, ← hm2, ← h2]
      omega

/-- C8: for non-empty polygons `P` and `Q`, `P.isIntersect(Q)` returns, and it
returns true exactly when some vertex `v` of `Q` has `P.contains(v)` true or
some edge `e` of `P.createSegmentPool()` and some edge `f` of
`Q.createSegmentPool()` have `e.isIntersect(f)` true. -/
theorem polygon_isIntersect_iff (P Q : Polygon) (hP : P.points ≠ []) (hQ : Q.points ≠ []) :
    ∃ (b : Bool) (ourSegments otherSegments : List Segment),
      P.isIntersect Q = some b ∧
      P.createSegmentPool = some ourSegments ∧
      Q.createSegmentPool = some otherSegments ∧
      (b = true ↔
        (∃ v ∈ Q.points, P.contains v = some true) ∨
        (∃ e ∈ ourSegments, ∃ f ∈ otherSegments, (e.isIntersect f none).1 = true)) := by
  obtain ⟨ours, hours⟩ := createSegmentPool_isSome P hP
  obtain ⟨others, hothers⟩ := createSegmentPool_isSome Q hQ
  obtain ⟨n, hn1, hn2⟩ := foldl_countInner P (contains_isSome P hP) Q.points 0
  obtain ⟨m, hm1, hm2⟩ := foldl_countIntrOneIter others ours 0
  have hval : P.isIntersect Q =
      if ((0 : Int) + n) ≠ 0 then some true else some (decide (((0 : Int) + m) ≠ 0)) := by
    unfold Polygon.isIntersect
    simp only [hours, hothers, hn1, hm1]
  by_cases hz : n = 0
  · refine ⟨decide (m ≠ 0), ours, others, ?_, hours, hothers, ?_⟩
    · rw [hval, hz]
      simp
    · rw [← hn2, ← hm2]
      simp [hz]
  · refine ⟨true, ours, others, ?_, hours, hothers, ?_⟩
    · rw [hval, if_pos]
      simpa using hz
    · simp only [true_iff]
      exact Or.inl (hn2.1 hz)

theorem polygon_isIntersect_iff_witness :
    (Polygon.mk [⟨0, -10⟩, ⟨10, 0⟩, ⟨0, 10⟩, ⟨-10, 0⟩]).points ≠ [] ∧
    (Polygon.mk [⟨0, -1⟩, ⟨1, 0⟩, ⟨0, 1⟩, ⟨-1, 0⟩]).points ≠ [] ∧
    ∃ b : Bool,
      Polygon.isIntersect ⟨[⟨0, -10⟩, ⟨10, 0⟩, ⟨0, 10⟩, ⟨-10, 0⟩]⟩
        ⟨[⟨0, -1⟩, ⟨1, 0⟩, ⟨0, 1⟩, ⟨-1, 0⟩]⟩ = some b :=
  ⟨by decide, by decide,
    (polygon_isIntersect_iff ⟨[⟨0, -10⟩, ⟨10, 0⟩, ⟨0, 10⟩, ⟨-10, 0⟩]⟩
      ⟨[⟨0, -1⟩, ⟨1, 0⟩, ⟨0, 1⟩, ⟨-1, 0⟩]⟩ (by decide) (by decide)).imp
      fun _ h => h.elim fun _ h => h.elim fun _ h => h.1⟩

/-! ## The scenarios of the specification, evaluated on the code -/

/-- C1 (the code diverges from the claim): for the polygon with vertices
`[(0,0),(4,0),(4,4),(0,4)]`, `contains` applied to `(2,2)` evaluates to
false, where the claim expects true: no edge of the square is accepted by
`Segment.isIntersect`, the vertical ones for their zero x-extent, the
horizontal ones for the zero determinant against the horizontal ray. -/
theorem contains_square_center_false :
    (Polygon.mk [⟨0, 0⟩, ⟨4, 0⟩, ⟨4, 4⟩, ⟨0, 4⟩]).contains ⟨2, 2⟩ = some false ∧
    (Polygon.mk [⟨0, 0⟩, ⟨4, 0⟩, ⟨4, 4⟩, ⟨0, 4⟩]).createSegmentPool =
      some [⟨⟨0, 0⟩, ⟨4, 0⟩⟩, ⟨⟨4, 0⟩, ⟨4, 4⟩⟩, ⟨⟨4, 4⟩, ⟨0, 4⟩⟩, ⟨⟨0, 4⟩, ⟨0, 0⟩⟩] ∧
    ∀ e ∈ [(⟨⟨0, 0⟩, ⟨4, 0⟩⟩ : Segment), ⟨⟨4, 0⟩, ⟨4, 4⟩⟩, ⟨⟨4, 4⟩, ⟨0, 4⟩⟩, ⟨⟨0, 4⟩, ⟨0, 0⟩⟩],
      addPoint ⟨⟨2, 2⟩, ⟨4 + 3, 2⟩⟩ e = none := by
  refine ⟨by decide!, by decide!, by decide!⟩

/-- C2 (the code diverges from the claim): the triangle `[(0,0),(0,4),(4,2)]`
is convex and the point `(-1,1)` lies strictly left of all its vertices, hence
strictly outside its bounding box, yet `contains` evaluates to true: the ray
meets the edge `(4,2)-(0,0)` at `(2,1)` and the vertical edge `(0,0)-(0,4)`,
which it crosses too, is skipped.  The same happens without any vertical edge
when the ray passes through a vertex: for `[(0,0),(4,0),(2,4)]` and `(-1,4)`
the apex is counted once. -/
theorem contains_outside_bounding_box_true :
    (∀ v ∈ (Polygon.mk [⟨0, 0⟩, ⟨0, 4⟩, ⟨4, 2⟩]).points, (-1 : Int) < v.x) ∧
    (Polygon.mk [⟨0, 0⟩, ⟨0, 4⟩, ⟨4, 2⟩]).contains ⟨-1, 1⟩ = some true ∧
    (∀ v ∈ (Polygon.mk [⟨0, 0⟩, ⟨4, 0⟩, ⟨2, 4⟩]).points, (-1 : Int) < v.x) ∧
    (Polygon.mk [⟨0, 0⟩, ⟨4, 0⟩, ⟨2, 4⟩]).contains ⟨-1, 4⟩ = some true := by
  refine ⟨by decide, by decide!, by decide, by decide!⟩

/-- C3 (the code diverges from the claim): for the outer square
`[(0,0),(10,0),(10,10),(0,10)]` and the inner square `[(2,2),(4,2),(4,4),(2,4)]`
`outer.isIntersect(inner)` evaluates to false, and no vertex of the inner
square is reported contained by the outer one, where the claim expects true
through the containment phase. -/
theorem isIntersect_nested_squares_false :
    Polygon.isIntersect ⟨[⟨0, 0⟩, ⟨10, 0⟩, ⟨10, 10⟩, ⟨0, 10⟩]⟩
        ⟨[⟨2, 2⟩, ⟨4, 2⟩, ⟨4, 4⟩, ⟨2, 4⟩]⟩ = some false ∧
    ∀ v ∈ (Polygon.mk [⟨2, 2⟩, ⟨4, 2⟩, ⟨4, 4⟩, ⟨2, 4⟩]).points,
      (Polygon.mk [⟨0, 0⟩, ⟨10, 0⟩, ⟨10, 10⟩, ⟨0, 10⟩]).contains v = some false := by
  refine ⟨by decide!, by decide!⟩

/-! ## Area -/

/-- Heron's radicand in terms of the squared side lengths. -/
theorem heron_radicand (a b c A B C : ℝ) (ha : a * a = A) (hb : b * b = B) (hc : c * c = C) :
    (a + b + c) / 2 * ((a + b + c) / 2 - a) * ((a + b + c) / 2 - b) * ((a + b + c) / 2 - c)
      = (4 * A * B - (A + B - C) * (A + B - C)) / 16 := by
  subst ha hb hc
  ring

/-- Heron's radicand of an integer triangle is the square of half the cross
product. -/
theorem heronRadicand_eq (p1 p2 p3 : Point) :
    heronRadicand Real.sqrt p1 p2 p3 = (((cross p1 p2 p3 : Int) : ℝ) / 2) ^ 2 := by
  unfold heronRadicand
  simp only []
  have hA : (0 : ℝ) ≤ (((p1.x - p2.x) * (p1.x - p2.x) + (p1.y - p2.y) * (p1.y - p2.y) : Int) : ℝ) := by
    exact_mod_cast add_nonneg (mul_self_nonneg _) (mul_self_nonneg _)
  have hB : (0 : ℝ) ≤ (((p1.x - p3.x) * (p1.x - p3.x) + (p1.y - p3.y) * (p1.y - p3.y) : Int) : ℝ) := by
    exact_mod_cast add_nonneg (mul_self_nonneg _) (mul_self_nonneg _)
  have hC : (0 : ℝ) ≤ (((p3.x - p2.x) * (p3.x - p2.x) + (p3.y - p2.y) * (p3.y - p2.y) : Int) : ℝ) := by
    exact_mod_cast add_nonneg (mul_self_nonneg _) (mul_self_nonneg _)
  rw [heron_radicand _ _ _ _ _ _ (Real.mul_self_sqrt hA) (Real.mul_self_sqrt hB)
    (Real.mul_self_sqrt hC)]
  unfold cross
  push_cast
  ring

/-- Heron's formula on the side lengths of an integer triangle gives half the
absolute value of the cross product. -/
theorem triangleArea_eq (p1 p2 p3 : Point) :
    triangleArea Real.sqrt p1 p2 p3 = |((cross p1 p2 p3 : Int) : ℝ)| / 2 := by
  have h : triangleArea Real.sqrt p1 p2 p3 = Real.sqrt (heronRadicand Real.sqrt p1 p2 p3) := rfl
  rw [h, heronRadicand_eq, Real.sqrt_sq_eq_abs, abs_div, abs_two]

/-- C16: over the reals, `triangleArea(p1,p2,p3)`, computed by Heron's formula
from the three side lengths, equals the area of the triangle,
`|(p2.x - p1.x)*(p3.y - p1.y) - (p3.x - p1.x)*(p2.y - p1.y)| / 2`; it is 0
exactly when the three points are collinear; and it is the square root of a
radicand that is never negative. -/
theorem triangleArea_heron (p1 p2 p3 : Point) :
    triangleArea Real.sqrt p1 p2 p3
      = |(((p2.x - p1.x) * (p3.y - p1.y) - (p3.x - p1.x) * (p2.y - p1.y) : Int) : ℝ)| / 2 ∧
    (triangleArea Real.sqrt p1 p2 p3 = 0 ↔
      (p2.x - p1.x) * (p3.y - p1.y) - (p3.x - p1.x) * (p2.y - p1.y) = 0) ∧
    triangleArea Real.sqrt p1 p2 p3 = Real.sqrt (heronRadicand Real.sqrt p1 p2 p3) ∧
    0 ≤ heronRadicand Real.sqrt p1 p2 p3 := by
  have h := triangleArea_eq p1 p2 p3
  refine ⟨h, ?_, rfl, ?_⟩
  · rw [h]
    constructor
    · intro h0
      have : |((cross p1 p2 p3 : Int) : ℝ)| = 0 := by linarith
      have h1 : ((cross p1 p2 p3 : Int) : ℝ) = 0 := abs_eq_zero.mp this
      have h2 : cross p1 p2 p3 = 0 := by exact_mod_cast h1
      exact h2
    · intro h0
      have h2 : cross p1 p2 p3 = 0 := h0
      rw [h2]
      simp
  · rw [heronRadicand_eq]
    exact sq_nonneg _

/-- The loop of `area` adds the fan triangles to the accumulator. -/
theorem counter_eq_chainSum {K : Type} [Field K] (sqrt : K → K) (p0 prev : Point) (ac : K)
    (l : List Point) :
    counter sqrt p0 prev ac l = ac + chainSum (triangleArea sqrt p0) prev l := by
  induction l generalizing prev ac with
  | nil => simp [counter, chainSum]
  | cons cur rest ih =>
    rw [counter, ih, chainSum]
    ring

/-- A chain sum by index. -/
theorem chainSum_eq_sum {M : Type} [AddCommMonoid M] (F : Point → Point → M) (prev : Point)
    (l : List Point) (d : Point) :
    chainSum F prev l
      = ∑ i in Finset.range l.length, F ((prev :: l).getD i d) ((prev :: l).getD (i + 1) d) := by
  induction l generalizing prev with
  | nil => simp [chainSum]
  | cons cur rest ih =>
    rw [chainSum, ih cur, List.length_cons, Finset.sum_range_succ']
    simp only [List.getD_cons_succ, List.getD_cons_zero]
    rw [add_comm]

theorem area_cons_cons {K : Type} [Field K] (sqrt : K → K) (p0 prev : Point)
    (rest : List Point) :
    (Polygon.mk (p0 :: prev :: rest)).area sqrt
      = some (chainSum (triangleArea sqrt p0) prev rest) := by
  show some (counter sqrt p0 prev 0 rest) = _
  rw [counter_eq_chainSum, zero_add]

/-- Over the reals a chain sum of triangle areas is the chain sum of the
halved absolute cross products. -/
theorem chainSum_triangleArea (p0 prev : Point) (l : List Point) :
    chainSum (triangleArea Real.sqrt p0) prev l
      = chainSum (fun p q => |((cross p0 p q : Int) : ℝ)| / 2) prev l := by
  induction l generalizing prev with
  | nil => rfl
  | cons cur rest ih => rw [chainSum, chainSum, ih, triangleArea_eq]

theorem chainSum_nonneg (F : Point → Point → ℝ) (hF : ∀ p q, 0 ≤ F p q) (prev : Point)
    (l : List Point) : 0 ≤ chainSum F prev l := by
  induction l generalizing prev with
  | nil => simp [chainSum]
  | cons cur rest ih =>
    rw [chainSum]
    exact add_nonneg (hF _ _) (ih cur)

/-- C12: for the polygon with vertices `[(0,0),(4,0),(4,4),(0,4)]`, `area()`
equals 16, the square roots being exact real square roots. -/
theorem area_square_eq_16 :
    (Polygon.mk [⟨0, 0⟩, ⟨4, 0⟩, ⟨4, 4⟩, ⟨0, 4⟩]).area Real.sqrt = some 16 := by
  rw [area_cons_cons, chainSum_triangleArea]
  simp only [chainSum, cross]
  norm_num

/-- The fan cross products telescope to the shoelace terms of the chain plus
the two edges at the fan's apex. -/
theorem chainSum_cross (p0 prev : Point) (l : List Point) :
    chainSum (cross p0) prev l
      = chainSum lace prev l + lace p0 prev + lace (l.getLastD prev) p0 := by
  induction l generalizing prev with
  | nil =>
    simp only [chainSum, List.getLastD_nil, lace]
    ring
  | cons cur rest ih =>
    rw [chainSum, chainSum, ih cur, List.getLastD_cons]
    simp only [cross, lace]
    ring

theorem getD_length_cons (p0 : Point) (rest : List Point) (d : Point) :
    (p0 :: rest).getD rest.length d = rest.getLastD p0 := by
  induction rest generalizing p0 with
  | nil => simp
  | cons cur rest ih =>
    rw [List.length_cons, List.getD_cons_succ, ih cur, List.getLastD_cons]

/-- The cyclic shoelace sum, as a chain sum plus the closing edge. -/
theorem shoelaceSum_cons (p0 : Point) (rest : List Point) :
    shoelaceSum (p0 :: rest) = chainSum lace p0 rest + lace (rest.getLastD p0) p0 := by
  unfold shoelaceSum
  rw [List.length_cons, Finset.sum_range_succ, chainSum_eq_sum lace p0 rest ⟨0, 0⟩]
  congr 1
  · apply Finset.sum_congr rfl
    intro i hi
    rw [Nat.mod_eq_of_lt (by simpa using Finset.mem_range.mp hi)]
  · rw [Nat.mod_self, getD_length_cons]
    rfl

theorem shoelaceSum_eq_fan (p0 prev : Point) (rest : List Point) :
    shoelaceSum (p0 :: prev :: rest) = chainSum (cross p0) prev rest := by
  rw [shoelaceSum_cons, chainSum_cross, chainSum, List.getLastD_cons]
  ring

theorem chainSum_cast (F : Point → Point → Int) (prev : Point) (l : List Point) :
    ((chainSum F prev l : Int) : ℝ) = chainSum (fun p q => ((F p q : Int) : ℝ)) prev l := by
  induction l generalizing prev with
  | nil => simp [chainSum]
  | cons cur rest ih =>
    rw [chainSum, chainSum, ← ih cur]
    push_cast
    rfl

theorem sum_Icc_one (f : Nat → ℝ) (m : Nat) :
    ∑ i in Finset.Icc 1 m, f i = ∑ i in Finset.range m, f (i + 1) := by
  rw [Finset.range_eq_Ico, Finset.sum_Ico_add' f 0 m 1]
  rfl

/-- With `int` arithmetic read without overflow: `area()` is the fan sum of
`triangleArea`, and with fan triangles of one orientation it is the shoelace
area. -/
theorem area_exact_fan_shoelace (P : Polygon) (hn : 3 ≤ P.points.length) :
    P.area Real.sqrt = some (∑ i in Finset.Icc 1 (P.points.length - 2),
      triangleArea Real.sqrt (P.points.getD 0 ⟨0, 0⟩) (P.points.getD i ⟨0, 0⟩)
        (P.points.getD (i + 1) ⟨0, 0⟩)) ∧
    (((∀ i, 1 ≤ i → i ≤ P.points.length - 2 →
          0 ≤ cross (P.points.getD 0 ⟨0, 0⟩) (P.points.getD i ⟨0, 0⟩)
            (P.points.getD (i + 1) ⟨0, 0⟩)) ∨
      (∀ i, 1 ≤ i → i ≤ P.points.length - 2 →
          cross (P.points.getD 0 ⟨0, 0⟩) (P.points.getD i ⟨0, 0⟩)
            (P.points.getD (i + 1) ⟨0, 0⟩) ≤ 0)) →
      P.area Real.sqrt = some (|((shoelaceSum P.points : Int) : ℝ)| / 2)) := by
  obtain ⟨pts⟩ := P
  match pts, hn with
  | p0 :: prev :: rest, _ =>
    have hlen : (p0 :: prev :: rest).length - 2 = rest.length := by simp
    have hidx : ∀ (F : Point → Point → ℝ),
        chainSum F prev rest = ∑ i in Finset.Icc 1 ((p0 :: prev :: rest).length - 2),
          F ((p0 :: prev :: rest).getD i ⟨0, 0⟩) ((p0 :: prev :: rest).getD (i + 1) ⟨0, 0⟩) := by
      intro F
      rw [hlen, sum_Icc_one, chainSum_eq_sum F prev rest ⟨0, 0⟩]
      rfl
    constructor
    · show (Polygon.mk (p0 :: prev :: rest)).area Real.sqrt = _
      rw [area_cons_cons, hidx]
      rfl
    · intro hsign
      show (Polygon.mk (p0 :: prev :: rest)).area Real.sqrt
        = some (|((shoelaceSum (p0 :: prev :: rest) : Int) : ℝ)| / 2)
      rw [area_cons_cons, chainSum_triangleArea, shoelaceSum_eq_fan]
      rw [chainSum_cast, hidx, hidx, ← Finset.sum_div]
      congr 2
      simp only [hlen] at hsign ⊢
      rcases hsign with hpos | hneg
      · have hterm : ∀ i ∈ Finset.Icc 1 rest.length,
            (0 : ℝ) ≤ ((cross p0 ((p0 :: prev :: rest).getD i ⟨0, 0⟩)
              ((p0 :: prev :: rest).getD (i + 1) ⟨0, 0⟩) : Int) : ℝ) := by
          intro i hi
          have hi' := Finset.mem_Icc.mp hi
          exact_mod_cast hpos i hi'.1 hi'.2
        rw [abs_of_nonneg (Finset.sum_nonneg hterm)]
        exact Finset.sum_congr rfl fun i hi => abs_of_nonneg (hterm i hi)
      · have hterm : ∀ i ∈ Finset.Icc 1 rest.length,
            ((cross p0 ((p0 :: prev :: rest).getD i ⟨0, 0⟩)
              ((p0 :: prev :: rest).getD (i + 1) ⟨0, 0⟩) : Int) : ℝ) ≤ 0 := by
          intro i hi
          have hi' := Finset.mem_Icc.mp hi
          exact_mod_cast hneg i hi'.1 hi'.2
        rw [abs_of_nonpos (Finset.sum_nonpos hterm), ← Finset.sum_neg_distrib]
        exact Finset.sum_congr rfl fun i hi => abs_of_nonpos (hterm i hi)

theorem area_isSome (P : Polygon) (hn : 3 ≤ P.points.length) :
    ∃ a : ℝ, P.area Real.sqrt = some a := by
  obtain ⟨pts⟩ := P
  match pts, hn with
  | p0 :: prev :: rest, _ => exact ⟨_, rfl⟩

theorem lt_of_area (P Q : Polygon) (a b : ℝ) (hP : P.area Real.sqrt = some a)
    (hQ : Q.area Real.sqrt = some b) : P.lt Real.sqrt Q = some (decide (a < b)) := by
  unfold Polygon.lt
  rw [hP, hQ]

/-- C11: for polygons `P`, `Q`, `R` with at least 3 vertices, area read over
the reals, `P < Q` holds exactly when `area(P) < area(Q)`; so `<` is
irreflexive and transitive, exactly one of `P < Q`, `Q < P`,
`area(P) = area(Q)` holds, and polygons of equal area (whatever their vertex
sequences) are ordered in neither direction. -/
theorem polygon_lt_iff (P Q R : Polygon) (hP : 3 ≤ P.points.length)
    (hQ : 3 ≤ Q.points.length) (hR : 3 ≤ R.points.length) :
    ∃ aP aQ aR : ℝ,
      P.area Real.sqrt = some aP ∧ Q.area Real.sqrt = some aQ ∧ R.area Real.sqrt = some aR ∧
      P.lt Real.sqrt Q = some (decide (aP < aQ)) ∧
      (P.lt Real.sqrt Q = some true ↔ aP < aQ) ∧
      P.lt Real.sqrt P = some false ∧
      (P.lt Real.sqrt Q = some true → Q.lt Real.sqrt R = some true →
        P.lt Real.sqrt R = some true) ∧
      ((P.lt Real.sqrt Q = some true ∧ Q.lt Real.sqrt P = some false ∧ aP ≠ aQ) ∨
       (P.lt Real.sqrt Q = some false ∧ Q.lt Real.sqrt P = some true ∧ aP ≠ aQ) ∨
       (P.lt Real.sqrt Q = some false ∧ Q.lt Real.sqrt P = some false ∧ aP = aQ)) ∧
      (aP = aQ → P.lt Real.sqrt Q = some false ∧ Q.lt Real.sqrt P = some false) := by
  obtain ⟨aP, haP⟩ := area_isSome P hP
  obtain ⟨aQ, haQ⟩ := area_isSome Q hQ
  obtain ⟨aR, haR⟩ := area_isSome R hR
  have hPQ := lt_of_area P Q aP aQ haP haQ
  have hQP := lt_of_area Q P aQ aP haQ haP
  have hQR := lt_of_area Q R aQ aR haQ haR
  have hPR := lt_of_area P R aP aR haP haR
  have hPP := lt_of_area P P aP aP haP haP
  refine ⟨aP, aQ, aR, haP, haQ, haR, hPQ, ?_, ?_, ?_, ?_, ?_⟩
  · rw [hPQ]
    simp
  · rw [hPP]
    simp
  · rw [hPQ, hQR, hPR]
    simp only [Option.some.injEq, decide_eq_true_eq]
    exact fun h1 h2 => lt_trans h1 h2
  · rw [hPQ, hQP]
    simp only [Option.some.injEq, decide_eq_true_eq, decide_eq_false_iff_not, not_lt]
    rcases lt_trichotomy aP aQ with h | h | h
    · exact Or.inl ⟨h, le_of_lt h, ne_of_lt h⟩
    · exact Or.inr (Or.inr ⟨le_of_eq h.symm, le_of_eq h, h⟩)
    · exact Or.inr (Or.inl ⟨le_of_lt h, h, ne_of_gt h⟩)
  · intro h
    rw [hPQ, hQP, h]
    simp

theorem area_triangle_3_4_5 :
    (Polygon.mk [⟨0, 0⟩, ⟨4, 0⟩, ⟨0, 3⟩]).area Real.sqrt = some 6 ∧
    (Polygon.mk [⟨0, 0⟩, ⟨3, 0⟩, ⟨0, 4⟩]).area Real.sqrt = some 6 := by
  constructor
  · rw [area_cons_cons, chainSum_triangleArea]
    simp only [chainSum, cross]
    norm_num
  · rw [area_cons_cons, chainSum_triangleArea]
    simp only [chainSum, cross]
    norm_num

theorem polygon_lt_iff_witness :
    3 ≤ (Polygon.mk [⟨0, 0⟩, ⟨4, 0⟩, ⟨0, 3⟩]).points.length ∧
    3 ≤ (Polygon.mk [⟨0, 0⟩, ⟨3, 0⟩, ⟨0, 4⟩]).points.length ∧
    (Polygon.mk [⟨0, 0⟩, ⟨4, 0⟩, ⟨0, 3⟩]).points ≠ (Polygon.mk [⟨0, 0⟩, ⟨3, 0⟩, ⟨0, 4⟩]).points ∧
    Polygon.lt Real.sqrt ⟨[⟨0, 0⟩, ⟨4, 0⟩, ⟨0, 3⟩]⟩ ⟨[⟨0, 0⟩, ⟨3, 0⟩, ⟨0, 4⟩]⟩ = some false ∧
    Polygon.lt Real.sqrt ⟨[⟨0, 0⟩, ⟨3, 0⟩, ⟨0, 4⟩]⟩ ⟨[⟨0, 0⟩, ⟨4, 0⟩, ⟨0, 3⟩]⟩ = some false := by
  obtain ⟨aP, aQ, -, hP, hQ, -, -, -, -, -, -, hneither⟩ :=
    polygon_lt_iff ⟨[⟨0, 0⟩, ⟨4, 0⟩, ⟨0, 3⟩]⟩ ⟨[⟨0, 0⟩, ⟨3, 0⟩, ⟨0, 4⟩]⟩
      ⟨[⟨0, 0⟩, ⟨4, 0⟩, ⟨0, 3⟩]⟩ (by decide) (by decide) (by decide)
  have h1 : aP = 6 := Option.some.inj (hP.symm.trans area_triangle_3_4_5.1)
  have h2 : aQ = 6 := Option.some.inj (hQ.symm.trans area_triangle_3_4_5.2)
  exact ⟨by decide, by decide, by decide, hneither (h1.trans h2.symm)⟩

/-! ## Containment by ray casting -/

/-- An edge that is vertical, or horizontal like the ray, contributes the
sentinel. -/
theorem addPoint_axis_aligned (q : Point) (maxX : Int) (e : Segment)
    (he : e.start.x = e.endp.x ∨ e.start.y = e.endp.y) :
    addPoint ⟨q, ⟨maxX + 3, q.y⟩⟩ e = none := by
  have h : e.isIntersect ⟨q, ⟨maxX + 3, q.y⟩⟩ (some (0, 0)) = (false, some (0, 0)) := by
    apply isIntersect_degenerate
    rcases he with h | h
    · left
      omega
    · right
      unfold Segment.det
      rw [h]
      ring
  unfold addPoint
  simp only [h]

/-- C17: for a non-empty polygon all of whose edges, as produced by
`createSegmentPool`, are horizontal or vertical (any axis-aligned rectangle,
for one), `contains(q)` returns false for every point `q`. -/
theorem contains_axis_aligned_false (P : Polygon) (pool : List Segment)
    (hpool : P.createSegmentPool = some pool)
    (haxis : ∀ e ∈ pool, e.start.x = e.endp.x ∨ e.start.y = e.endp.y) (q : Point) :
    P.contains q = some false := by
  obtain ⟨pts⟩ := P
  cases pts with
  | nil => simp [Polygon.createSegmentPool] at hpool
  | cons p0 rest =>
    have hc : (Polygon.mk (p0 :: rest)).contains q
        = some (containsWith
            (rest.map (fun pnt => pnt.x) |>.foldl
              (fun largest w => if largest < w then w else largest) p0.x)
            pool q) := by
      unfold Polygon.contains
      simp only [hpool, List.map_cons, maxElement]
    rw [hc]
    have hnone : ∀ maxX : Int, (pool.map (addPoint ⟨q, ⟨maxX + 3, q.y⟩⟩)).filterMap id = [] := by
      intro maxX
      rw [List.filterMap_eq_nil_iff]
      intro o ho
      obtain ⟨e, he, rfl⟩ := List.mem_map.mp ho
      exact addPoint_axis_aligned q maxX e (haxis e he)
    unfold containsWith
    simp only [hnone]
    rfl

theorem contains_axis_aligned_false_witness :
    (Polygon.mk [⟨0, 0⟩, ⟨4, 0⟩, ⟨4, 4⟩, ⟨0, 4⟩]).createSegmentPool
      = some [⟨⟨0, 0⟩, ⟨4, 0⟩⟩, ⟨⟨4, 0⟩, ⟨4, 4⟩⟩, ⟨⟨4, 4⟩, ⟨0, 4⟩⟩, ⟨⟨0, 4⟩, ⟨0, 0⟩⟩] ∧
    (∀ e ∈ [(⟨⟨0, 0⟩, ⟨4, 0⟩⟩ : Segment), ⟨⟨4, 0⟩, ⟨4, 4⟩⟩, ⟨⟨4, 4⟩, ⟨0, 4⟩⟩, ⟨⟨0, 4⟩, ⟨0, 0⟩⟩],
      e.start.x = e.endp.x ∨ e.start.y = e.endp.y) ∧
    ∀ q : Point, (Polygon.mk [⟨0, 0⟩, ⟨4, 0⟩, ⟨4, 4⟩, ⟨0, 4⟩]).contains q = some false :=
  ⟨by decide, by decide,
    contains_axis_aligned_false ⟨[⟨0, 0⟩, ⟨4, 0⟩, ⟨4, 4⟩, ⟨0, 4⟩]⟩
      [⟨⟨0, 0⟩, ⟨4, 0⟩⟩, ⟨⟨4, 0⟩, ⟨4, 4⟩⟩, ⟨⟨4, 4⟩, ⟨0, 4⟩⟩, ⟨⟨0, 4⟩, ⟨0, 0⟩⟩]
      (by decide) (by decide)⟩

/-! ## Symmetry -/

theorem det_swap (S T : Segment) : T.det S = -(S.det T) := by
  unfold Segment.det
  ring

/-- With both segments non-vertical and a regular system, the parameters
computed from either side are the same pair, exchanged. -/
theorem params_swap (S T : Segment) (hS : S.endp.x - S.start.x ≠ 0)
    (hT : T.endp.x - T.start.x ≠ 0) (hd : S.det T ≠ 0) :
    T.paramT1 S = S.paramT2 T ∧ T.paramT2 S = S.paramT1 T := by
  have hd' : T.det S ≠ 0 := by
    rw [det_swap]
    exact neg_ne_zero.mpr hd
  obtain ⟨e1, e2⟩ := params_solve T S hT hd'
  obtain ⟨u2, u1⟩ := params_unique S T (T.paramT2 S) (T.paramT1 S) hS hd
    (by push_cast at e1 ⊢; linear_combination -e1)
    (by push_cast at e2 ⊢; linear_combination -e2)
  exact ⟨u2, u1⟩

/-- C19: for segments `S` and `T` that are both non-vertical,
`S.isIntersect(T)` and `T.isIntersect(S)` return the same boolean, and when
they return true they write the same intersection point. -/
theorem isIntersect_symm (S T : Segment) (hS : S.start.x ≠ S.endp.x)
    (hT : T.start.x ≠ T.endp.x) (intr intr2 : Option (ℚ × ℚ)) :
    (S.isIntersect T intr).1 = (T.isIntersect S intr2).1 ∧
    ∀ v w : ℚ × ℚ, (S.isIntersect T (some v)).1 = true → (T.isIntersect S (some w)).1 = true →
      ∃ pt : ℚ × ℚ, (S.isIntersect T (some v)).2 = some pt ∧
        (T.isIntersect S (some w)).2 = some pt := by
  have hS' : S.endp.x - S.start.x ≠ 0 := fun h => hS (by omega)
  have hT' : T.endp.x - T.start.x ≠ 0 := fun h => hT (by omega)
  by_cases hd : S.det T = 0
  · have hd' : T.det S = 0 := by rw [det_swap, hd, neg_zero]
    have h1 : ∀ i, S.isIntersect T i = (false, i) :=
      fun i => isIntersect_degenerate S T i (Or.inr hd)
    have h2 : ∀ i, T.isIntersect S i = (false, i) :=
      fun i => isIntersect_degenerate T S i (Or.inr hd')
    refine ⟨by rw [h1, h2], ?_⟩
    intro v w hv
    rw [h1] at hv
    exact absurd hv (by simp)
  · have hd' : T.det S ≠ 0 := by
      rw [det_swap]
      exact neg_ne_zero.mpr hd
    obtain ⟨p1, p2⟩ := params_swap S T hS' hT' hd
    have hiff : ∀ i j, (S.isIntersect T i).1 = true ↔ (T.isIntersect S j).1 = true := by
      intro i j
      rw [isIntersect_true_iff, isIntersect_true_iff, p1, p2]
      constructor
      · rintro ⟨-, -, a, b, c, d⟩
        exact ⟨hT', hd', c, d, a, b⟩
      · rintro ⟨-, -, a, b, c, d⟩
        exact ⟨hS', hd, c, d, a, b⟩
    refine ⟨?_, ?_⟩
    · rw [Bool.eq_iff_iff]
      exact hiff intr intr2
    · intro v w hv hw
      refine ⟨_, isIntersect_slot S T v hv, ?_⟩
      rw [isIntersect_slot T S w hw, p1]
      obtain ⟨e1, e2⟩ := params_solve S T hS' hd
      push_cast at e1 e2
      congr 1
      refine Prod.ext ?_ ?_
      · show (T.start.x : ℚ) + ((T.endp.x - T.start.x : Int) : ℚ) * S.paramT2 T
          = (S.start.x : ℚ) + ((S.endp.x - S.start.x : Int) : ℚ) * S.paramT1 T
        push_cast
        linear_combination -e1
      · show (T.start.y : ℚ) + ((T.endp.y - T.start.y : Int) : ℚ) * S.paramT2 T
          = (S.start.y : ℚ) + ((S.endp.y - S.start.y : Int) : ℚ) * S.paramT1 T
        push_cast
        linear_combination -e2

theorem isIntersect_symm_witness :
    (⟨⟨0, 0⟩, ⟨2, 2⟩⟩ : Segment).start.x ≠ (⟨⟨0, 0⟩, ⟨2, 2⟩⟩ : Segment).endp.x ∧
    (⟨⟨0, 2⟩, ⟨2, 0⟩⟩ : Segment).start.x ≠ (⟨⟨0, 2⟩, ⟨2, 0⟩⟩ : Segment).endp.x ∧
    (Segment.isIntersect ⟨⟨0, 0⟩, ⟨2, 2⟩⟩ ⟨⟨0, 2⟩, ⟨2, 0⟩⟩ none).1
      = (Segment.isIntersect ⟨⟨0, 2⟩, ⟨2, 0⟩⟩ ⟨⟨0, 0⟩, ⟨2, 2⟩⟩ none).1 ∧
    (Segment.isIntersect ⟨⟨0, 0⟩, ⟨2, 2⟩⟩ ⟨⟨0, 2⟩, ⟨2, 0⟩⟩ none).1 = true :=
  ⟨by decide, by decide,
    (isIntersect_symm ⟨⟨0, 0⟩, ⟨2, 2⟩⟩ ⟨⟨0, 2⟩, ⟨2, 0⟩⟩ (by decide) (by decide) none none).1,
    by decide!⟩

/-- C13: for the squares `A = [(0,0),(1,0),(1,1),(0,1)]` and
`B = [(5,5),(6,5),(6,6),(5,6)]`, `A.isIntersect(B)` returns false and so does
`B.isIntersect(A)`. -/
theorem isIntersect_disjoint_squares :
    Polygon.isIntersect ⟨[⟨0, 0⟩, ⟨1, 0⟩, ⟨1, 1⟩, ⟨0, 1⟩]⟩
        ⟨[⟨5, 5⟩, ⟨6, 5⟩, ⟨6, 6⟩, ⟨5, 6⟩]⟩ = some false ∧
    Polygon.isIntersect ⟨[⟨5, 5⟩, ⟨6, 5⟩, ⟨6, 6⟩, ⟨5, 6⟩]⟩
        ⟨[⟨0, 0⟩, ⟨1, 0⟩, ⟨1, 1⟩, ⟨0, 1⟩]⟩ = some false := by
  refine ⟨by decide!, by decide!⟩

/-- C20: `Polygon::isIntersect` is not symmetric: for
`P = [(0,-10),(10,0),(0,10),(-10,0)]` and `Q = [(0,-1),(1,0),(0,1),(-1,0)]`,
`P.isIntersect(Q)` is true while `Q.isIntersect(P)` is false; a vertex of `Q`
is reported contained by `P`, no vertex of `P` is reported contained by `Q`,
and no edge of one is reported to meet an edge of the other. -/
theorem isIntersect_not_symmetric :
    Polygon.isIntersect ⟨[⟨0, -10⟩, ⟨10, 0⟩, ⟨0, 10⟩, ⟨-10, 0⟩]⟩
        ⟨[⟨0, -1⟩, ⟨1, 0⟩, ⟨0, 1⟩, ⟨-1, 0⟩]⟩ = some true ∧
    Polygon.isIntersect ⟨[⟨0, -1⟩, ⟨1, 0⟩, ⟨0, 1⟩, ⟨-1, 0⟩]⟩
        ⟨[⟨0, -10⟩, ⟨10, 0⟩, ⟨0, 10⟩, ⟨-10, 0⟩]⟩ = some false ∧
    (∃ v ∈ (Polygon.mk [⟨0, -1⟩, ⟨1, 0⟩, ⟨0, 1⟩, ⟨-1, 0⟩]).points,
      (Polygon.mk [⟨0, -10⟩, ⟨10, 0⟩, ⟨0, 10⟩, ⟨-10, 0⟩]).contains v = some true) ∧
    (∀ v ∈ (Polygon.mk [⟨0, -10⟩, ⟨10, 0⟩, ⟨0, 10⟩, ⟨-10, 0⟩]).points,
      (Polygon.mk [⟨0, -1⟩, ⟨1, 0⟩, ⟨0, 1⟩, ⟨-1, 0⟩]).contains v = some false) ∧
    (∀ e ∈ ((Polygon.mk [⟨0, -10⟩, ⟨10, 0⟩, ⟨0, 10⟩, ⟨-10, 0⟩]).createSegmentPool).getD [],
      ∀ f ∈ ((Polygon.mk [⟨0, -1⟩, ⟨1, 0⟩, ⟨0, 1⟩, ⟨-1, 0⟩]).createSegmentPool).getD [],
        (e.isIntersect f none).1 = false ∧ (f.isIntersect e none).1 = false) := by
  refine ⟨by decide!, by decide!, ⟨⟨1, 0⟩, by decide, by decide!⟩, by decide!, by decide!⟩

/-! ## The parity rule of `contains` -/

/-- The order `std::sort` arranges by: `b` is not less than `a`. -/
theorem pairLt_eq_false_iff (a b : ℚ × ℚ) :
    pairLt b a = false ↔ a.1 < b.1 ∨ (a.1 = b.1 ∧ a.2 ≤ b.2) := by
  unfold pairLt
  simp only [Bool.or_eq_false_iff, Bool.and_eq_false_imp, decide_eq_false_iff_not,
    Bool.not_eq_true', not_lt]
  constructor
  · rintro ⟨h1, h2⟩
    rcases lt_or_eq_of_le h1 with h | h
    · exact Or.inl h
    · exact Or.inr ⟨h, h2 (le_of_eq h.symm)⟩
  · rintro (h | ⟨h1, h2⟩)
    · exact ⟨le_of_lt h, fun h' => absurd h (not_lt.mpr h')⟩
    · exact ⟨le_of_eq h1, fun _ => h2⟩

theorem pairLe_total : IsTotal (ℚ × ℚ) (fun a b => pairLt b a = false) where
  total a b := by
    simp only [pairLt_eq_false_iff]
    rcases lt_trichotomy a.1 b.1 with h | h | h
    · exact Or.inl (Or.inl h)
    · rcases le_total a.2 b.2 with h2 | h2
      · exact Or.inl (Or.inr ⟨h, h2⟩)
      · exact Or.inr (Or.inr ⟨h.symm, h2⟩)
    · exact Or.inr (Or.inl h)

theorem pairLe_trans : IsTrans (ℚ × ℚ) (fun a b => pairLt b a = false) where
  trans a b c := by
    simp only [pairLt_eq_false_iff]
    rintro (h | ⟨h1, h2⟩) (k | ⟨k1, k2⟩)
    · exact Or.inl (lt_trans h k)
    · exact Or.inl (k1 ▸ h)
    · exact Or.inl (h1 ▸ k)
    · exact Or.inr ⟨h1.trans k1, le_trans h2 k2⟩

theorem pairLe_antisymm (a b : ℚ × ℚ) (h : pairLt b a = false) (k : pairLt a b = false) :
    a = b := by
  rw [pairLt_eq_false_iff] at h k
  rcases h with h | ⟨h1, h2⟩
  · rcases k with k | ⟨k1, -⟩
    · exact absurd h (not_lt.mpr (le_of_lt k))
    · exact absurd h (by rw [k1]; exact lt_irrefl _)
  · rcases k with k | ⟨-, k2⟩
    · exact absurd k (by rw [h1]; exact lt_irrefl _)
    · exact Prod.ext h1 (le_antisymm h2 k2)

theorem mem_unique (x : ℚ × ℚ) (l : List (ℚ × ℚ)) : x ∈ unique l ↔ x ∈ l := by
  induction l with
  | nil => simp [unique]
  | cons a rest ih =>
    cases rest with
    | nil => simp [unique]
    | cons b rest =>
      rw [unique]
      split_ifs with hab
      · rw [ih, hab]
        simp
      · rw [List.mem_cons, ih, List.mem_cons (a := x) (b := a)]

/-- On a sorted vector `std::unique` leaves no duplicates. -/
theorem nodup_unique (l : List (ℚ × ℚ))
    (hs : l.Sorted (fun a b => pairLt b a = false)) : (unique l).Nodup := by
  induction l with
  | nil => simp [unique]
  | cons a rest ih =>
    cases rest with
    | nil => simp [unique]
    | cons b rest =>
      have hs' := List.sorted_cons.mp hs
      rw [unique]
      split_ifs with hab
      · exact ih hs'.2
      · rw [List.nodup_cons]
        refine ⟨?_, ih hs'.2⟩
        rw [mem_unique]
        intro hmem
        have hba : pairLt a b = false := by
          rcases List.mem_cons.mp hmem with h | h
          · exact absurd h hab
          · have := (List.sorted_cons.mp hs'.2).1 a h
            exact this
        exact hab (pairLe_antisymm a b (hs'.1 b (List.mem_cons_self _ _)) hba)

/-- After sort and unique the vector holds each distinct point once. -/
theorem length_unique_sortPairs (l : List (ℚ × ℚ)) :
    (unique (sortPairs l)).length = l.toFinset.card := by
  haveI := pairLe_total
  haveI := pairLe_trans
  have hs : (sortPairs l).Sorted (fun a b => pairLt b a = false) :=
    List.sorted_insertionSort _ l
  rw [← List.toFinset_card_of_nodup (nodup_unique _ hs)]
  congr 1
  ext x
  rw [List.mem_toFinset, List.mem_toFinset, mem_unique]
  exact (List.perm_insertionSort _ l).mem_iff

/-- The value `*std::max_element` is an element and bounds all elements. -/
theorem maxElement_spec (l : List Int) (m : Int) (h : maxElement l = some m) :
    m ∈ l ∧ ∀ w ∈ l, w ≤ m := by
  have key : ∀ (rest : List Int) (v : Int),
      rest.foldl (fun largest w => if largest < w then w else largest) v ∈ v :: rest ∧
      ∀ w ∈ v :: rest,
        w ≤ rest.foldl (fun largest w => if largest < w then w else largest) v := by
    intro rest
    induction rest with
    | nil => intro v; simp
    | cons u rest ih =>
      intro v
      rw [List.foldl_cons]
      obtain ⟨h1, h2⟩ := ih (if v < u then u else v)
      constructor
      · rcases List.mem_cons.mp h1 with h | h
        · rw [h]
          split_ifs <;> simp
        · exact List.mem_cons_of_mem _ (List.mem_cons_of_mem _ h)
      · intro w hw
        have hstep : (if v < u then u else v)
            ≤ rest.foldl (fun largest w => if largest < w then w else largest)
                (if v < u then u else v) := h2 _ (List.mem_cons_self _ _)
        rcases List.mem_cons.mp hw with h | h
        · rw [h]
          refine le_trans ?_ hstep
          split_ifs with hvu
          · exact le_of_lt hvu
          · exact le_refl _
        · rcases List.mem_cons.mp h with h | h
          · rw [h]
            refine le_trans ?_ hstep
            split_ifs with hvu
            · exact le_refl _
            · exact not_lt.mp hvu
          · exact h2 w (List.mem_cons_of_mem _ h)
  cases l with
  | nil => simp [maxElement] at h
  | cons v rest =>
    simp only [maxElement, Option.some.injEq] at h
    rw [← h]
    exact key rest v

/-- What `addPoint` returns: the point written by a successful
`isIntersect`, whatever the slot held before. -/
theorem addPoint_eq_some_iff (ray e : Segment) (pt : ℚ × ℚ) :
    addPoint ray e = some pt ↔ ∃ v, e.isIntersect ray (some v) = (true, some pt) := by
  have hslot : ∀ v, (e.isIntersect ray (some v)).1 = true →
      e.isIntersect ray (some v) = (true, some
        ((e.start.x : ℚ) + ((e.endp.x - e.start.x : Int) : ℚ) * e.paramT1 ray,
         (e.start.y : ℚ) + ((e.endp.y - e.start.y : Int) : ℚ) * e.paramT1 ray)) :=
    fun v hv => Prod.ext hv (isIntersect_slot e ray v hv)
  constructor
  · intro h
    refine ⟨(0, 0), ?_⟩
    unfold addPoint at h
    simp only [] at h
    split at h
    · next r heq =>
      rw [heq, Option.some.inj h]
    · exact absurd h (by simp)
  · rintro ⟨v, hv⟩
    have h1 : (e.isIntersect ray (some v)).1 = true := by rw [hv]
    have h0 : (e.isIntersect ray (some (0, 0))).1 = true :=
      (isIntersect_true_iff e ray _).2 ((isIntersect_true_iff e ray _).1 h1)
    have hpt : some pt = some
        ((e.start.x : ℚ) + ((e.endp.x - e.start.x : Int) : ℚ) * e.paramT1 ray,
         (e.start.y : ℚ) + ((e.endp.y - e.start.y : Int) : ℚ) * e.paramT1 ray) := by
      have := hslot v h1
      rw [hv] at this
      exact (Prod.ext_iff.mp this).2
    unfold addPoint
    simp only [hslot (0, 0) h0]
    exact hpt.symm

/-- C15: for a non-empty polygon `P` and a point `q`, `P.contains(q)` returns
true exactly when the number of distinct intersection points is odd; the
points are those written by `e.isIntersect(ray, &pt)` for the edges `e` of
`P.createSegmentPool()` on which the call returns true, `ray` being the
segment from `q` to `(maxX + 3, q.y)` with `maxX` the largest vertex x; a
point produced by several edges is counted once. -/
theorem contains_iff_odd_hits (P : Polygon) (hP : P.points ≠ []) (q : Point) :
    ∃ (maxX : Int) (pool : List Segment) (hits : Finset (ℚ × ℚ)) (b : Bool),
      (∃ v ∈ P.points, v.x = maxX) ∧ (∀ v ∈ P.points, v.x ≤ maxX) ∧
      P.createSegmentPool = some pool ∧
      (∀ pt, pt ∈ hits ↔
        ∃ e ∈ pool, ∃ v, e.isIntersect ⟨q, ⟨maxX + 3, q.y⟩⟩ (some v) = (true, some pt)) ∧
      P.contains q = some b ∧
      (b = true ↔ Odd hits.card) := by
  obtain ⟨pool, hpool⟩ := createSegmentPool_isSome P hP
  have hx : ∃ maxX, maxElement (P.points.map fun pnt => pnt.x) = some maxX := by
    cases hpts : P.points with
    | nil => exact absurd hpts hP
    | cons p0 rest => exact ⟨_, rfl⟩
  obtain ⟨maxX, hmax⟩ := hx
  obtain ⟨hmem, hle⟩ := maxElement_spec _ maxX hmax
  refine ⟨maxX, pool,
    ((pool.map (addPoint ⟨q, ⟨maxX + 3, q.y⟩⟩)).filterMap id).toFinset,
    containsWith maxX pool q, ?_, ?_, hpool, ?_, ?_, ?_⟩
  · obtain ⟨v, hv, hvx⟩ := List.mem_map.mp hmem
    exact ⟨v, hv, hvx⟩
  · intro v hv
    exact hle _ (List.mem_map.mpr ⟨v, hv, rfl⟩)
  · intro pt
    rw [List.mem_toFinset, List.mem_filterMap]
    constructor
    · rintro ⟨o, ho, hid⟩
      obtain ⟨e, he, rfl⟩ := List.mem_map.mp ho
      exact ⟨e, he, (addPoint_eq_some_iff _ e pt).1 hid⟩
    · rintro ⟨e, he, hv⟩
      exact ⟨_, List.mem_map.mpr ⟨e, he, rfl⟩, (addPoint_eq_some_iff _ e pt).2 hv⟩
  · unfold Polygon.contains
    simp only [hmax, hpool]
  · unfold containsWith
    simp only [length_unique_sortPairs, Nat.and_one_is_mod, bne_iff_ne, ne_eq]
    rw [Nat.odd_iff]
    omega

theorem contains_iff_odd_hits_witness :
    (Polygon.mk [⟨0, 0⟩, ⟨0, 4⟩, ⟨4, 2⟩]).points ≠ [] ∧
    ∃ b : Bool, (Polygon.mk [⟨0, 0⟩, ⟨0, 4⟩, ⟨4, 2⟩]).contains ⟨-1, 1⟩ = some b :=
  ⟨by decide,
    (contains_iff_odd_hits ⟨[⟨0, 0⟩, ⟨0, 4⟩, ⟨4, 2⟩]⟩ (by decide) ⟨-1, 1⟩).elim
      fun _ h => h.elim fun _ h => h.elim fun _ h => h.imp fun _ h => h.2.2.2.2.1⟩

/-! ## The functions with 32-bit `int` arithmetic -/

theorem wrap32_of_fits (z : Int) (h : fitsInt z) : wrap32 z = z := by
  unfold fitsInt at h
  unfold wrap32
  omega

theorem wrap32_zero : wrap32 0 = 0 := by decide

/-- Where the four differences of the system do not overflow, the guard of
`isIntersect32` is the guard of the exact reading. -/
theorem isIntersect32_degenerate (s other : Segment) (intr : Option (ℚ × ℚ))
    (h : s.endp.x - s.start.x = 0 ∨
      (fitsInt (s.endp.x - s.start.x) ∧ fitsInt (other.start.x - other.endp.x) ∧
       fitsInt (s.endp.y - s.start.y) ∧ fitsInt (other.start.y - other.endp.y) ∧
       s.det other = 0)) :
    s.isIntersect32 other intr = (false, intr) := by
  have hq : ((wrap32 (s.endp.x - s.start.x) : Int) : ℚ) = 0 ∨
      ((wrap32 (s.endp.x - s.start.x) : Int) : ℚ)
          * ((wrap32 (other.start.y - other.endp.y) : Int) : ℚ)
        - ((wrap32 (s.endp.y - s.start.y) : Int) : ℚ)
          * ((wrap32 (other.start.x - other.endp.x) : Int) : ℚ) = 0 := by
    rcases h with h | ⟨f1, f2, f3, f4, hd⟩
    · left
      rw [h, wrap32_zero]
      rfl
    · right
      rw [wrap32_of_fits _ f1, wrap32_of_fits _ f2, wrap32_of_fits _ f3, wrap32_of_fits _ f4]
      unfold Segment.det at hd
      exact_mod_cast hd
  unfold Segment.isIntersect32
  simp only [if_pos hq]

/-- Where none of the six differences overflows, `isIntersect32` is the exact
reading `isIntersect`. -/
theorem isIntersect32_eq_isIntersect (s other : Segment) (intr : Option (ℚ × ℚ))
    (f1 : fitsInt (s.endp.x - s.start.x)) (f2 : fitsInt (other.start.x - other.endp.x))
    (f3 : fitsInt (s.endp.y - s.start.y)) (f4 : fitsInt (other.start.y - other.endp.y))
    (f5 : fitsInt (other.start.x - s.start.x)) (f6 : fitsInt (other.start.y - s.start.y)) :
    s.isIntersect32 other intr = s.isIntersect other intr := by
  unfold Segment.isIntersect32 Segment.isIntersect
  rw [wrap32_of_fits _ f1, wrap32_of_fits _ f2, wrap32_of_fits _ f3, wrap32_of_fits _ f4,
    wrap32_of_fits _ f5, wrap32_of_fits _ f6]

/-- C6 (the claim fails as stated): the segments `S = (4,0)-(-2147483644,1)`
and `T = (0,0)-(-2147483648,1)` are parallel, their determinant is zero, yet
`S.isIntersect(T, &out)` returns true and overwrites the slot, because the
`int` subtraction `T.start.x - T.end.x` overflows; likewise for
`S = T = (0,0)-(-2147483648,1)`. -/
theorem isIntersect32_zero_det_overflow_true :
    ((-2147483644 - 4 : Int) * (0 - 1) - (1 - 0) * (0 - -2147483648) = 0 ∧
      Segment.isIntersect32 ⟨⟨4, 0⟩, ⟨-2147483644, 1⟩⟩ ⟨⟨0, 0⟩, ⟨-2147483648, 1⟩⟩ (some (9, 9))
        = (true, some (2, 1 / 1073741824))) ∧
    ((-2147483648 - 0 : Int) * (0 - 1) - (1 - 0) * (0 - -2147483648) = 0 ∧
      Segment.isIntersect32 ⟨⟨0, 0⟩, ⟨-2147483648, 1⟩⟩ ⟨⟨0, 0⟩, ⟨-2147483648, 1⟩⟩ (some (9, 9))
        = (true, some (0, 0))) := by
  refine ⟨⟨by decide, by decide!⟩, ⟨by decide, by decide!⟩⟩

/-- C6 (amended): if `S` has zero x-extent, or the determinant of the system
is zero and none of the four `int` subtractions that form it
(`S.end.x - S.start.x`, `T.start.x - T.end.x`, `S.end.y - S.start.y`,
`T.start.y - T.end.y`) overflows, `S.isIntersect(T, &out)` returns false and
leaves the output slot unchanged (whatever the slot is: null, or holding any
value). -/
theorem isIntersect32_degenerate_false (S T : Segment) (out : Option (ℚ × ℚ))
    (h : S.endp.x - S.start.x = 0 ∨
      (fitsInt (S.endp.x - S.start.x) ∧ fitsInt (T.start.x - T.endp.x) ∧
       fitsInt (S.endp.y - S.start.y) ∧ fitsInt (T.start.y - T.endp.y) ∧
       (S.endp.x - S.start.x) * (T.start.y - T.endp.y)
        - (S.endp.y - S.start.y) * (T.start.x - T.endp.x) = 0)) :
    S.isIntersect32 T out = (false, out) :=
  isIntersect32_degenerate S T out h

theorem isIntersect32_degenerate_false_witness :
    (fitsInt ((⟨⟨0, 0⟩, ⟨2, 2⟩⟩ : Segment).endp.x - (⟨⟨0, 0⟩, ⟨2, 2⟩⟩ : Segment).start.x) ∧
      fitsInt ((⟨⟨1, 0⟩, ⟨4, 3⟩⟩ : Segment).start.x - (⟨⟨1, 0⟩, ⟨4, 3⟩⟩ : Segment).endp.x) ∧
      fitsInt ((⟨⟨0, 0⟩, ⟨2, 2⟩⟩ : Segment).endp.y - (⟨⟨0, 0⟩, ⟨2, 2⟩⟩ : Segment).start.y) ∧
      fitsInt ((⟨⟨1, 0⟩, ⟨4, 3⟩⟩ : Segment).start.y - (⟨⟨1, 0⟩, ⟨4, 3⟩⟩ : Segment).endp.y) ∧
      ((⟨⟨0, 0⟩, ⟨2, 2⟩⟩ : Segment).endp.x - (⟨⟨0, 0⟩, ⟨2, 2⟩⟩ : Segment).start.x)
          * ((⟨⟨1, 0⟩, ⟨4, 3⟩⟩ : Segment).start.y - (⟨⟨1, 0⟩, ⟨4, 3⟩⟩ : Segment).endp.y)
        - ((⟨⟨0, 0⟩, ⟨2, 2⟩⟩ : Segment).endp.y - (⟨⟨0, 0⟩, ⟨2, 2⟩⟩ : Segment).start.y)
          * ((⟨⟨1, 0⟩, ⟨4, 3⟩⟩ : Segment).start.x - (⟨⟨1, 0⟩, ⟨4, 3⟩⟩ : Segment).endp.x) = 0) ∧
    Segment.isIntersect32 ⟨⟨0, 0⟩, ⟨2, 2⟩⟩ ⟨⟨1, 0⟩, ⟨4, 3⟩⟩ (some (5, 6)) = (false, some (5, 6)) :=
  ⟨by unfold fitsInt; decide,
    isIntersect32_degenerate_false ⟨⟨0, 0⟩, ⟨2, 2⟩⟩ ⟨⟨1, 0⟩, ⟨4, 3⟩⟩ (some (5, 6))
      (Or.inr (by unfold fitsInt; decide))⟩

/-- C7 (the claim fails as stated): for `S = (0,0)-(-2147483648,1)`,
`S.isIntersect(S)` returns true (and, given a slot, writes `(0,0)`): the `int`
subtraction `S.start.x - S.end.x` overflows, so the computed determinant is
`2^32`, not zero. -/
theorem isIntersect32_self_overflow_true :
    (Segment.isIntersect32 ⟨⟨0, 0⟩, ⟨-2147483648, 1⟩⟩ ⟨⟨0, 0⟩, ⟨-2147483648, 1⟩⟩ none).1 = true ∧
    Segment.isIntersect32 ⟨⟨0, 0⟩, ⟨-2147483648, 1⟩⟩ ⟨⟨0, 0⟩, ⟨-2147483648, 1⟩⟩ (some (7, 7))
      = (true, some (0, 0)) ∧
    wrap32 (0 - -2147483648) = -2147483648 := by
  refine ⟨by decide!, by decide!, by decide⟩

/-- C7 (amended): for every segment `S` that is vertical, or whose `int`
differences `end - start` and `start - end` do not overflow in either
coordinate (every zero-length segment is of this kind), `S.isIntersect(S)`
returns false and writes nothing. -/
theorem isIntersect32_self_false (S : Segment) (out : Option (ℚ × ℚ))
    (h : S.start.x = S.endp.x ∨
      (fitsInt (S.endp.x - S.start.x) ∧ fitsInt (S.start.x - S.endp.x) ∧
       fitsInt (S.endp.y - S.start.y) ∧ fitsInt (S.start.y - S.endp.y))) :
    S.isIntersect32 S out = (false, out) := by
  apply isIntersect32_degenerate
  rcases h with h | ⟨f1, f2, f3, f4⟩
  · left
    omega
  · right
    refine ⟨f1, f2, f3, f4, ?_⟩
    unfold Segment.det
    ring

theorem isIntersect32_self_false_witness :
    (fitsInt ((⟨⟨-3, 5⟩, ⟨2147483000, -7⟩⟩ : Segment).endp.x
        - (⟨⟨-3, 5⟩, ⟨2147483000, -7⟩⟩ : Segment).start.x) ∧
      fitsInt ((⟨⟨-3, 5⟩, ⟨2147483000, -7⟩⟩ : Segment).start.x
        - (⟨⟨-3, 5⟩, ⟨2147483000, -7⟩⟩ : Segment).endp.x) ∧
      fitsInt ((⟨⟨-3, 5⟩, ⟨2147483000, -7⟩⟩ : Segment).endp.y
        - (⟨⟨-3, 5⟩, ⟨2147483000, -7⟩⟩ : Segment).start.y) ∧
      fitsInt ((⟨⟨-3, 5⟩, ⟨2147483000, -7⟩⟩ : Segment).start.y
        - (⟨⟨-3, 5⟩, ⟨2147483000, -7⟩⟩ : Segment).endp.y)) ∧
    Segment.isIntersect32 ⟨⟨-3, 5⟩, ⟨2147483000, -7⟩⟩ ⟨⟨-3, 5⟩, ⟨2147483000, -7⟩⟩ (some (1, 2))
      = (false, some (1, 2)) ∧
    Segment.isIntersect32 ⟨⟨1, 1⟩, ⟨1, 1⟩⟩ ⟨⟨1, 1⟩, ⟨1, 1⟩⟩ none = (false, none) :=
  ⟨by unfold fitsInt; decide,
    isIntersect32_self_false ⟨⟨-3, 5⟩, ⟨2147483000, -7⟩⟩ (some (1, 2))
      (Or.inr (by unfold fitsInt; decide)),
    isIntersect32_self_false ⟨⟨1, 1⟩, ⟨1, 1⟩⟩ none (Or.inl rfl)⟩

/-- Where the exact radicand of a side fits in `int`, no operation that forms
it overflows. -/
theorem radicand32_of_fits (p q : Point) (h : sideFits p q) :
    radicand32 p q = (p.x - q.x) * (p.x - q.x) + (p.y - q.y) * (p.y - q.y) := by
  unfold sideFits at h
  have hx : 0 ≤ (p.x - q.x) * (p.x - q.x) := mul_self_nonneg _
  have hy : 0 ≤ (p.y - q.y) * (p.y - q.y) := mul_self_nonneg _
  have bound : ∀ d : Int, d * d < 2147483648 → fitsInt d := by
    intro d hd
    unfold fitsInt
    constructor
    · by_contra hc
      push_neg at hc
      nlinarith
    · by_contra hc
      push_neg at hc
      nlinarith
  have fx : fitsInt (p.x - q.x) := bound _ (by linarith)
  have fy : fitsInt (p.y - q.y) := bound _ (by linarith)
  have fxx : fitsInt ((p.x - q.x) * (p.x - q.x)) := ⟨by linarith, by linarith⟩
  have fyy : fitsInt ((p.y - q.y) * (p.y - q.y)) := ⟨by linarith, by linarith⟩
  unfold radicand32
  rw [wrap32_of_fits _ fx, wrap32_of_fits _ fy, wrap32_of_fits _ fxx, wrap32_of_fits _ fyy,
    wrap32_of_fits _ ⟨by linarith, h⟩]

theorem sqrtNaN_of_nonneg (z : ℝ) (h : 0 ≤ z) : sqrtNaN Real.sqrt z = some (Real.sqrt z) := by
  unfold sqrtNaN
  rw [if_neg (not_lt.mpr h)]

/-- Without overflow `triangleArea32` is a number, the one of the exact
reading. -/
theorem triangleArea32_of_fits (p1 p2 p3 : Point) (h : triangleFits p1 p2 p3) :
    triangleArea32 Real.sqrt p1 p2 p3 = some (triangleArea Real.sqrt p1 p2 p3) := by
  obtain ⟨h12, h13, h32⟩ := h
  have hA : (0 : ℝ) ≤ (((p1.x - p2.x) * (p1.x - p2.x) + (p1.y - p2.y) * (p1.y - p2.y) : Int) : ℝ) := by
    exact_mod_cast add_nonneg (mul_self_nonneg _) (mul_self_nonneg _)
  have hB : (0 : ℝ) ≤ (((p1.x - p3.x) * (p1.x - p3.x) + (p1.y - p3.y) * (p1.y - p3.y) : Int) : ℝ) := by
    exact_mod_cast add_nonneg (mul_self_nonneg _) (mul_self_nonneg _)
  have hC : (0 : ℝ) ≤ (((p3.x - p2.x) * (p3.x - p2.x) + (p3.y - p2.y) * (p3.y - p2.y) : Int) : ℝ) := by
    exact_mod_cast add_nonneg (mul_self_nonneg _) (mul_self_nonneg _)
  have hrad : (0 : ℝ) ≤ heronRadicand Real.sqrt p1 p2 p3 := by
    rw [heronRadicand_eq]
    exact sq_nonneg _
  unfold triangleArea32
  rw [radicand32_of_fits _ _ h12, radicand32_of_fits _ _ h13, radicand32_of_fits _ _ h32,
    sqrtNaN_of_nonneg _ hA, sqrtNaN_of_nonneg _ hB, sqrtNaN_of_nonneg _ hC]
  exact sqrtNaN_of_nonneg _ hrad

/-- Without overflow in the fan triangles the loop of `area` over
`triangleArea32` computes the number of the exact reading. -/
theorem counter32_of_fits (p0 prev : Point) (ac : ℝ) (l : List Point) (d : Point)
    (h : ∀ i, i < l.length →
      triangleFits p0 ((prev :: l).getD i d) ((prev :: l).getD (i + 1) d)) :
    counter32 Real.sqrt p0 prev (some ac) l = some (counter Real.sqrt p0 prev ac l) := by
  induction l generalizing prev ac with
  | nil => rfl
  | cons cur rest ih =>
    have h0 : triangleFits p0 prev cur := by
      have := h 0 (by simp)
      simpa using this
    rw [counter32, counter, triangleArea32_of_fits _ _ _ h0]
    apply ih
    intro i hi
    have := h (i + 1) (by simpa using hi)
    simpa using this

/-- A value of `triangleArea32` that is a number is not negative. -/
theorem triangleArea32_nonneg (p1 p2 p3 : Point) (t : ℝ)
    (h : triangleArea32 Real.sqrt p1 p2 p3 = some t) : 0 ≤ t := by
  unfold triangleArea32 at h
  split at h
  · next a b c _ _ _ =>
    simp only [sqrtNaN] at h
    split_ifs at h
    rw [← Option.some.inj h]
    exact Real.sqrt_nonneg _
  · exact absurd h (by simp)

/-- A value of the loop of `area` that is a number is not negative, from a
non-negative accumulator. -/
theorem counter32_nonneg (p0 prev : Point) (ac : Option ℝ) (l : List Point) (a : ℝ)
    (hac : ∀ x, ac = some x → 0 ≤ x)
    (h : counter32 Real.sqrt p0 prev ac l = some a) : 0 ≤ a := by
  induction l generalizing prev ac with
  | nil => exact hac a h
  | cons cur rest ih =>
    rw [counter32] at h
    refine ih cur _ ?_ h
    intro x hx
    cases hu : ac with
    | none => rw [hu] at hx; exact absurd hx (by simp [addNaN])
    | some u =>
      cases hv : triangleArea32 Real.sqrt p0 prev cur with
      | none => rw [hu, hv] at hx; exact absurd hx (by simp [addNaN])
      | some v =>
        rw [hu, hv] at hx
        have hxe : u + v = x := Option.some.inj hx
        rw [← hxe]
        exact add_nonneg (hac u hu) (triangleArea32_nonneg _ _ _ v hv)

/-- C14 (the claim fails as stated): the triangle
`[(0,0),(60000,0),(0,80000)]` is simple (its vertices are not collinear), yet
`area()` is NaN, which is not `>= 0`: the `int` product `60000 * 60000`
overflows to a negative radicand. -/
theorem area32_triangle_overflow_nan :
    3 ≤ (Polygon.mk [⟨0, 0⟩, ⟨60000, 0⟩, ⟨0, 80000⟩]).points.length ∧
    cross ⟨0, 0⟩ ⟨60000, 0⟩ ⟨0, 80000⟩ ≠ 0 ∧
    radicand32 ⟨0, 0⟩ ⟨60000, 0⟩ = -694967296 ∧
    (Polygon.mk [⟨0, 0⟩, ⟨60000, 0⟩, ⟨0, 80000⟩]).area32 Real.sqrt = some none ∧
    ¬ ∃ a : ℝ, (Polygon.mk [⟨0, 0⟩, ⟨60000, 0⟩, ⟨0, 80000⟩]).area32 Real.sqrt = some (some a)
      ∧ 0 ≤ a := by
  have hr : radicand32 ⟨0, 0⟩ ⟨60000, 0⟩ = -694967296 := by decide
  have hnan : (Polygon.mk [⟨0, 0⟩, ⟨60000, 0⟩, ⟨0, 80000⟩]).area32 Real.sqrt = some none := by
    show some (counter32 Real.sqrt ⟨0, 0⟩ ⟨60000, 0⟩ (some 0) [⟨0, 80000⟩]) = some none
    have ht : triangleArea32 Real.sqrt ⟨0, 0⟩ ⟨60000, 0⟩ ⟨0, 80000⟩ = none := by
      unfold triangleArea32
      rw [hr]
      have : sqrtNaN Real.sqrt (((-694967296 : Int) : ℝ)) = none := by
        unfold sqrtNaN
        rw [if_pos (by norm_num)]
      rw [this]
    rw [counter32, ht]
    rfl
  refine ⟨by decide, by decide, hr, hnan, ?_⟩
  rintro ⟨a, ha, -⟩
  rw [hnan] at ha
  exact absurd ha (by simp)

/-- C14 (amended): for every polygon with at least 3 integer vertices (simple
or not) in whose fan triangles `(p_0, p_i, p_{i+1})`, `1 <= i <= n-2`, no
`int` operation of `triangleArea` overflows, `area()` is a number and, the
square roots being real square roots, it is not negative; and whenever
`area()` is a number at all, overflow or not, it is not negative. -/
theorem area32_nonneg (P : Polygon) (hn : 3 ≤ P.points.length) :
    ((∀ i, 1 ≤ i → i ≤ P.points.length - 2 →
        triangleFits (P.points.getD 0 ⟨0, 0⟩) (P.points.getD i ⟨0, 0⟩)
          (P.points.getD (i + 1) ⟨0, 0⟩)) →
      ∃ a : ℝ, P.area32 Real.sqrt = some (some a) ∧ 0 ≤ a) ∧
    (∀ a : ℝ, P.area32 Real.sqrt = some (some a) → 0 ≤ a) := by
  obtain ⟨pts⟩ := P
  match pts, hn with
  | p0 :: prev :: rest, _ =>
    have hany : ∀ a : ℝ, (Polygon.mk (p0 :: prev :: rest)).area32 Real.sqrt = some (some a) →
        0 ≤ a := by
      intro a ha
      have ha' : counter32 Real.sqrt p0 prev (some 0) rest = some a := Option.some.inj ha
      refine counter32_nonneg p0 prev (some 0) rest a ?_ ha'
      intro x hx
      rw [← Option.some.inj hx]
    refine ⟨?_, hany⟩
    intro hfit
    have hc := counter32_of_fits p0 prev 0 rest ⟨0, 0⟩ (by
      intro i hi
      have := hfit (i + 1) (by omega) (by simpa using hi)
      simpa using this)
    have harea : (Polygon.mk (p0 :: prev :: rest)).area32 Real.sqrt
        = some (some (counter Real.sqrt p0 prev 0 rest)) := by
      show some (counter32 Real.sqrt p0 prev (some 0) rest) = _
      rw [hc]
    exact ⟨_, harea, hany _ harea⟩

theorem area32_nonneg_witness :
    3 ≤ (Polygon.mk [⟨0, 0⟩, ⟨4, 0⟩, ⟨4, 4⟩, ⟨0, 4⟩]).points.length ∧
    ∃ a : ℝ, (Polygon.mk [⟨0, 0⟩, ⟨4, 0⟩, ⟨4, 4⟩, ⟨0, 4⟩]).area32 Real.sqrt = some (some a)
      ∧ 0 ≤ a :=
  ⟨by decide,
    (area32_nonneg ⟨[⟨0, 0⟩, ⟨4, 0⟩, ⟨4, 4⟩, ⟨0, 4⟩]⟩ (by decide)).1 (by
      intro i h1 h2
      have h3 : i ≤ 2 := h2
      interval_cases i <;> (unfold triangleFits sideFits; decide))⟩

/-- The loop of `area` over `triangleArea32`, as the left-to-right sum of the
fan terms by index. -/
theorem counter32_eq_foldl (p0 prev : Point) (ac : Option ℝ) (l : List Point) (d : Point) :
    counter32 Real.sqrt p0 prev ac l
      = (List.range l.length).foldl (fun acc i =>
          addNaN acc (triangleArea32 Real.sqrt p0 ((prev :: l).getD i d)
            ((prev :: l).getD (i + 1) d))) ac := by
  induction l generalizing prev ac with
  | nil => rfl
  | cons cur rest ih =>
    rw [counter32, ih, List.length_cons, List.range_succ_eq_map, List.foldl_cons,
      List.foldl_map]
    rfl

/-- C18 (the claim fails as stated): the triangle
`[(0,0),(60000,0),(0,80000)]` has its one fan triangle positively oriented and
shoelace area `4800000000 / 2`, yet `area()` is NaN: the `int` product
`60000 * 60000` in `triangleArea` overflows to a negative radicand. -/
theorem area32_shoelace_overflow_nan :
    3 ≤ (Polygon.mk [⟨0, 0⟩, ⟨60000, 0⟩, ⟨0, 80000⟩]).points.length ∧
    0 ≤ cross ⟨0, 0⟩ ⟨60000, 0⟩ ⟨0, 80000⟩ ∧
    shoelaceSum [⟨0, 0⟩, ⟨60000, 0⟩, ⟨0, 80000⟩] = 4800000000 ∧
    (Polygon.mk [⟨0, 0⟩, ⟨60000, 0⟩, ⟨0, 80000⟩]).area32 Real.sqrt = some none ∧
    (Polygon.mk [⟨0, 0⟩, ⟨60000, 0⟩, ⟨0, 80000⟩]).area32 Real.sqrt
      ≠ some (some (|((shoelaceSum [⟨0, 0⟩, ⟨60000, 0⟩, ⟨0, 80000⟩] : Int) : ℝ)| / 2)) := by
  have hnan : (Polygon.mk [⟨0, 0⟩, ⟨60000, 0⟩, ⟨0, 80000⟩]).area32 Real.sqrt = some none := by
    show some (counter32 Real.sqrt ⟨0, 0⟩ ⟨60000, 0⟩ (some 0) [⟨0, 80000⟩]) = some none
    have hr : radicand32 ⟨0, 0⟩ ⟨60000, 0⟩ = -694967296 := by decide
    have ht : triangleArea32 Real.sqrt ⟨0, 0⟩ ⟨60000, 0⟩ ⟨0, 80000⟩ = none := by
      unfold triangleArea32
      rw [hr]
      have : sqrtNaN Real.sqrt (((-694967296 : Int) : ℝ)) = none := by
        unfold sqrtNaN
        rw [if_pos (by norm_num)]
      rw [this]
    rw [counter32, ht]
    rfl
  refine ⟨by decide, by decide, by decide, hnan, ?_⟩
  rw [hnan]
  simp

/-- C18 (amended): for every polygon with `n >= 3` vertices `area()` is the
sum, from `0.0` and left to right, of `triangleArea(p_0, p_i, p_{i+1})` for
`1 <= i <= n-2` (NaN as soon as a term is NaN); and when no `int` operation of
`triangleArea` overflows in these fan triangles and they all have the same
orientation (cross products all `>= 0` or all `<= 0`), it equals the shoelace
area `|sum over i of (x_i*y_{i+1} - x_{i+1}*y_i)| / 2`, indices cyclic, the
square roots being real square roots. -/
theorem area32_fan_shoelace (P : Polygon) (hn : 3 ≤ P.points.length) :
    P.area32 Real.sqrt = some ((List.range' 1 (P.points.length - 2)).foldl (fun acc i =>
      addNaN acc (triangleArea32 Real.sqrt (P.points.getD 0 ⟨0, 0⟩) (P.points.getD i ⟨0, 0⟩)
        (P.points.getD (i + 1) ⟨0, 0⟩))) (some 0)) ∧
    ((∀ i, 1 ≤ i → i ≤ P.points.length - 2 →
        triangleFits (P.points.getD 0 ⟨0, 0⟩) (P.points.getD i ⟨0, 0⟩)
          (P.points.getD (i + 1) ⟨0, 0⟩)) →
      ((∀ i, 1 ≤ i → i ≤ P.points.length - 2 →
          0 ≤ cross (P.points.getD 0 ⟨0, 0⟩) (P.points.getD i ⟨0, 0⟩)
            (P.points.getD (i + 1) ⟨0, 0⟩)) ∨
       (∀ i, 1 ≤ i → i ≤ P.points.length - 2 →
          cross (P.points.getD 0 ⟨0, 0⟩) (P.points.getD i ⟨0, 0⟩)
            (P.points.getD (i + 1) ⟨0, 0⟩) ≤ 0)) →
      P.area32 Real.sqrt = some (some (|((shoelaceSum P.points : Int) : ℝ)| / 2))) := by
  have hexact := (area_exact_fan_shoelace P hn).2
  obtain ⟨pts⟩ := P
  match pts, hn with
  | p0 :: prev :: rest, _ =>
    constructor
    · show some (counter32 Real.sqrt p0 prev (some 0) rest) = _
      rw [counter32_eq_foldl p0 prev (some 0) rest ⟨0, 0⟩]
      have hlen : (Polygon.mk (p0 :: prev :: rest)).points.length - 2 = rest.length := by simp
      rw [hlen, List.range'_eq_map_range, List.foldl_map]
      congr 2
      funext acc i
      simp only [List.getD_cons_zero, Nat.add_comm 1 i, List.getD_cons_succ]
    · intro hfit hsign
      have hc := counter32_of_fits p0 prev 0 rest ⟨0, 0⟩ (by
        intro i hi
        have := hfit (i + 1) (by omega) (by simpa using hi)
        simpa using this)
      have h1 : (Polygon.mk (p0 :: prev :: rest)).area Real.sqrt
          = some (counter Real.sqrt p0 prev 0 rest) := rfl
      have h2 := hexact hsign
      rw [h1] at h2
      show some (counter32 Real.sqrt p0 prev (some 0) rest) = _
      rw [hc, Option.some.inj h2]

theorem area32_fan_shoelace_witness :
    3 ≤ (Polygon.mk [⟨0, 0⟩, ⟨4, 0⟩, ⟨4, 4⟩, ⟨0, 4⟩]).points.length ∧
    (Polygon.mk [⟨0, 0⟩, ⟨4, 0⟩, ⟨4, 4⟩, ⟨0, 4⟩]).area32 Real.sqrt
      = some (some (|((shoelaceSum [⟨0, 0⟩, ⟨4, 0⟩, ⟨4, 4⟩, ⟨0, 4⟩] : Int) : ℝ)| / 2)) ∧
    shoelaceSum [⟨0, 0⟩, ⟨4, 0⟩, ⟨4, 4⟩, ⟨0, 4⟩] = 32 :=
  ⟨by decide,
    (area32_fan_shoelace ⟨[⟨0, 0⟩, ⟨4, 0⟩, ⟨4, 4⟩, ⟨0, 4⟩]⟩ (by decide)).2
      (by
        intro i h1 h2
        have h3 : i ≤ 2 := h2
        interval_cases i <;> (unfold triangleFits sideFits; decide))
      (Or.inl (by
        intro i h1 h2
        have h3 : i ≤ 2 := h2
        interval_cases i <;> decide)),
    by decide⟩


end usikov
